import Mathlib

/-!
Verification of the Wilson-style maze generator in `src/index.ts`
(class `WilsonMaze`) and its variant `Maze` in `src/unnamed/part_001`.

The embedding models JavaScript numbers that hold integer values as `Int`,
the cell array as a `List CellType` (reads of an out-of-range index give
`none`, the model of JS `undefined`), and the random source as a stream
`rng : ℕ → ℕ` of draws together with a running draw counter; each
`Math.floor(Math.random() * k)` is modelled as `rng i % k`, which realises
exactly the values `0 .. k-1` the source expression can produce.  The three
`while` loops are modelled with explicit fuel; a run that returns `some`
corresponds exactly to a terminating run of the source, and `none` covers
fuel exhaustion and the crash when `path.get(...)!` is `undefined`.
-/

set_option maxRecDepth 20000

namespace MazeGame

/-- Cell states, from `enum CellType` in src/index.ts. -/
inductive CellType where
  | Solid
  | Empty
deriving DecidableEq

/-- Walk directions, from `const enum Direction` in src/index.ts. -/
inductive Direction where
  | Up
  | Down
  | Left
  | Right
deriving DecidableEq

/-- 2-D coordinate, from `type Vector2 = { x: number; z: number }`. -/
structure Vector2 where
  x : Int
  z : Int
deriving DecidableEq

/-- The position reached when stepping `scale` tiles in direction `dir`,
from `function stepIn(pos, dir, scale)` in src/index.ts. -/
def stepIn (pos : Vector2) (dir : Direction) (scale : Int) : Vector2 :=
  match dir with
  | Direction.Up => { x := pos.x, z := pos.z - scale }
  | Direction.Down => { x := pos.x, z := pos.z + scale }
  | Direction.Left => { x := pos.x - scale, z := pos.z }
  | Direction.Right => { x := pos.x + scale, z := pos.z }

/-- The coordinate hash from `function hash(vec)` in src/index.ts:
`((vec.x & 0xFFFF) << 16) | (vec.z & 0xFFFF)` with JavaScript 32-bit
signed bitwise semantics.  Its doc comment states it is a perfect hash
for coordinates in `[0, 2^16)`; `hash_injOn` below proves that. -/
def hash (vec : Vector2) : Int :=
  let u := (vec.x % 65536) * 65536 + vec.z % 65536
  if u < 2147483648 then u else u - 4294967296

/-- Walk record: the transient `Map` from visited coordinate to the
direction taken from it.  src/index.ts keys the `Map` by `hash(curr)`
(a perfect, i.e. injective, hash of the coordinate domain `[0, 2^16)`
per its doc comment and `hash_injOn`), and src/unnamed/part_001 keys it
by the string `"x,z"`; both are modelled as association lists keyed by
the coordinate itself, with JS `Map.set` update-in-place semantics. -/
abbrev Path := List (Vector2 × Direction)

/-- JS `Map.get`. -/
def mapGet (p : Path) (k : Vector2) : Option Direction :=
  match p with
  | [] => none
  | (k', d) :: rest => if k' = k then some d else mapGet rest k

/-- JS `Map.set`: overwrite in place if the key is present, else append. -/
def mapSet (p : Path) (k : Vector2) (d : Direction) : Path :=
  match p with
  | [] => [(k, d)]
  | (k', d') :: rest =>
    if k' = k then (k, d) :: rest else (k', d') :: mapSet rest k d

/-- The mutable grid part of a `WilsonMaze` under construction:
fields `width`, `height`, `cells` of the class. -/
structure MazeGrid where
  width : Int
  height : Int
  cells : List CellType
deriving DecidableEq

/-- `private linearize(x, z) { return z * this.width + x; }` -/
def linearize (g : MazeGrid) (x z : Int) : Int :=
  z * g.width + x

/-- `delinearize(index)`: `{ x: index % this.width, z: Math.floor(index / this.width) }`.
JS `%` is truncating remainder (`Int.tmod`) and `Math.floor` of the real
quotient is floor division (`Int.fdiv`). -/
def delinearize (g : MazeGrid) (index : Int) : Vector2 :=
  { x := Int.tmod index g.width, z := Int.fdiv index g.width }

/-- `private getCellType(x, z) { return this.cells[this.linearize(x, z)]; }`
`none` models the JS `undefined` read of an out-of-range index. -/
def getCellType (g : MazeGrid) (x z : Int) : Option CellType :=
  let idx := linearize g x z
  if 0 ≤ idx then g.cells.get? idx.toNat else none

/-- `private setCellType(x, z, cellType) { this.cells[this.linearize(x, z)] = cellType; }`
`List.set` is a no-op out of range; all writes in verified runs are
in range (see the C9 theorems). -/
def setCellType (g : MazeGrid) (x z : Int) (c : CellType) : MazeGrid :=
  let idx := linearize g x z
  if 0 ≤ idx then { g with cells := g.cells.set idx.toNat c } else g

/-- `private randomDir()`: `Math.floor(Math.random() * 4) as Direction`. -/
def dirOfNat (n : ℕ) : Direction :=
  match n % 4 with
  | 0 => Direction.Up
  | 1 => Direction.Down
  | 2 => Direction.Left
  | _ => Direction.Right

/-- `private randomOddCell()`: draws `x = Math.floor(Math.random() * (width-1)/2)`,
`z = Math.floor(Math.random() * (height-1)/2)` and returns `(2x+1, 2z+1)`.
Two draws are consumed, at positions `k` and `k+1` of the stream. -/
def randomOddCell (g : MazeGrid) (rng : ℕ → ℕ) (k : ℕ) : Vector2 :=
  let x := rng k % ((g.width - 1).fdiv 2).toNat
  let z := rng (k + 1) % ((g.height - 1).fdiv 2).toNat
  { x := 2 * (x : Int) + 1, z := 2 * (z : Int) + 1 }

/-- `private randomWalk(start)` of `WilsonMaze` in src/index.ts, with fuel
for the `while` loop.  Arguments after the stream: fuel, draw counter,
`curr`, accumulated `path`.  Returns the recorded path and the next draw
counter, or `none` when fuel runs out. -/
def randomWalk (g : MazeGrid) (rng : ℕ → ℕ) :
    ℕ → ℕ → Vector2 → Path → Option (Path × ℕ)
  | 0, _, _, _ => none
  | fuel + 1, k, curr, path =>
    if getCellType g curr.x curr.z = some CellType.Solid then
      let dir := dirOfNat (rng k)
      let nextPos := stepIn curr dir 2
      if nextPos.x < 0 ∨ nextPos.z < 0 ∨ nextPos.x > g.width - 1 ∨
          nextPos.z > g.height - 1 then
        randomWalk g rng fuel (k + 1) curr path
      else
        let path' := mapSet path curr dir
        if getCellType g nextPos.x nextPos.z ≠ some CellType.Solid then
          some (path', k + 1)
        else
          randomWalk g rng fuel (k + 1) nextPos path'
    else
      some (path, k)

/-- `randomWalk(start)` of `class Maze` in src/unnamed/part_001 (the
variant with the `if/else` recording the step).  Identical surrounding
state model; see `c8_walks_agree`. -/
def randomWalkV2 (g : MazeGrid) (rng : ℕ → ℕ) :
    ℕ → ℕ → Vector2 → Path → Option (Path × ℕ)
  | 0, _, _, _ => none
  | fuel + 1, k, curr, path =>
    if getCellType g curr.x curr.z = some CellType.Solid then
      let dir := dirOfNat (rng k)
      let nextPos := stepIn curr dir 2
      if nextPos.x < 0 ∨ nextPos.z < 0 ∨ nextPos.x > g.width - 1 ∨
          nextPos.z > g.height - 1 then
        randomWalkV2 g rng fuel (k + 1) curr path
      else
        if getCellType g nextPos.x nextPos.z = some CellType.Solid then
          randomWalkV2 g rng fuel (k + 1) nextPos (mapSet path curr dir)
        else
          some (mapSet path curr dir, k + 1)
    else
      some (path, k)

/-- The inner `while` of `generateMaze` in src/index.ts: replay the
recorded path from `curr`, carving each intersection and the wall cell
between, decrementing `unvisitedIntersections`, until `curr` is no longer
`Solid`.  `none` models the crash when `path.get(hash(curr))!` is
`undefined` (the non-null assertion does not check at runtime; using the
`undefined` direction would throw), and fuel exhaustion. -/
def carvePath (g : MazeGrid) (path : Path) :
    ℕ → Vector2 → Int → Option (MazeGrid × Int)
  | 0, _, _ => none
  | fuel + 1, curr, n =>
    if getCellType g curr.x curr.z = some CellType.Solid then
      let g1 := setCellType g curr.x curr.z CellType.Empty
      match mapGet path curr with
      | none => none
      | some dir =>
        let between := stepIn curr dir 1
        let g2 := setCellType g1 between.x between.z CellType.Empty
        carvePath g2 path fuel (stepIn curr dir 2) (n - 1)
    else
      some (g, n)

/-- The outer `while (unvisitedIntersections > 0)` of `generateMaze`.
`wfuel` is the fuel given to each inner walk and carve loop. -/
def generateLoop (rng : ℕ → ℕ) (wfuel : ℕ) :
    ℕ → ℕ → MazeGrid → Int → Option MazeGrid
  | 0, _, g, n => if 0 < n then none else some g
  | fuel + 1, k, g, n =>
    if 0 < n then
      let start := randomOddCell g rng k
      match randomWalk g rng wfuel (k + 2) start [] with
      | none => none
      | some (path, k') =>
        match carvePath g path wfuel start n with
        | none => none
        | some (g', n') => generateLoop rng wfuel fuel k' g' n'
    else
      some g

/-- Dimension normalization in the constructor:
`this.width = width + (width % 2 == 0 ? 1 : 0)`. -/
def normalizeDim (d : Int) : Int :=
  d + (if d % 2 = 0 then 1 else 0)

/-- The initial number of unvisited intersections:
`Math.floor(this.width / 2) * Math.floor(this.height / 2) - 1`. -/
def initUnvisited (w h : Int) : Int :=
  w.fdiv 2 * h.fdiv 2 - 1

/-- The grid state right after the constructor fills every cell `Solid`
and marks the start cell `Empty`, i.e. the state at entry of
`generateMaze` (for the given already-normalized dimensions and start
coordinate). -/
def initState (w h : Int) (start : Vector2) : MazeGrid :=
  setCellType
    { width := w, height := h,
      cells := List.replicate (w * h).toNat CellType.Solid }
    start.x start.z CellType.Empty

/-- A fully constructed `WilsonMaze`: the grid together with the fields
`startIndex` and `goalIndex` fixed by the constructor. -/
structure WilsonMaze where
  grid : MazeGrid
  startIndex : Int
  goalIndex : Int
deriving DecidableEq

def WilsonMaze.width (m : WilsonMaze) : Int := m.grid.width

def WilsonMaze.height (m : WilsonMaze) : Int := m.grid.height

/-- `public startPos()`. -/
def WilsonMaze.startPos (m : WilsonMaze) : Vector2 :=
  delinearize m.grid m.startIndex

/-- `public goalPos()`. -/
def WilsonMaze.goalPos (m : WilsonMaze) : Vector2 :=
  delinearize m.grid m.goalIndex

/-- The `WilsonMaze` constructor (the spec's `generate(width, height)`):
normalize dimensions, default `startPos`/`goalPos`, compute the two
indices, fill the grid `Solid`, mark the start `Empty`, then run
`generateMaze`. -/
def generate (width height : Int) (startArg goalArg : Option Vector2)
    (rng : ℕ → ℕ) (fuel : ℕ) : Option WilsonMaze :=
  let w := normalizeDim width
  let h := normalizeDim height
  let start := startArg.getD { x := 1, z := 1 }
  let goal := goalArg.getD { x := w - 2, z := h - 2 }
  let startIndex := start.z * w + start.x
  let goalIndex := goal.z * w + goal.x
  let g1 := initState w h start
  match generateLoop rng fuel fuel 0 g1 (initUnvisited w h) with
  | none => none
  | some g =>
    some { grid := g, startIndex := startIndex, goalIndex := goalIndex }

/-- Coordinate `v` lies on the grid (the bounds the walk checks). -/
def inGrid (g : MazeGrid) (v : Vector2) : Prop :=
  0 ≤ v.x ∧ v.x ≤ g.width - 1 ∧ 0 ≤ v.z ∧ v.z ≤ g.height - 1

instance (g : MazeGrid) (v : Vector2) : Decidable (inGrid g v) := by
  unfold inGrid; infer_instance

/-- The cell at coordinate `v` is `Empty`. -/
def isEmptyCell (g : MazeGrid) (v : Vector2) : Prop :=
  getCellType g v.x v.z = some CellType.Empty

instance (g : MazeGrid) (v : Vector2) : Decidable (isEmptyCell g v) := by
  unfold isEmptyCell; infer_instance

/-- One step of the `Empty`-cell subgraph: grid-adjacent cells, both
on the grid and both `Empty`. -/
def emptyStep (g : MazeGrid) (a b : Vector2) : Prop :=
  inGrid g a ∧ inGrid g b ∧ isEmptyCell g a ∧ isEmptyCell g b ∧
    ∃ d, stepIn a d 1 = b

/-- Reachability in the `Empty`-cell subgraph (what a breadth-first
traversal computes). -/
def reachesFrom (g : MazeGrid) (s v : Vector2) : Prop :=
  Relation.ReflTransGen (emptyStep g) s v

/-- All on-grid coordinates, as pairs, for counting. -/
def gridCoords (g : MazeGrid) : Finset (Int × Int) :=
  Finset.Icc 0 (g.width - 1) ×ˢ Finset.Icc 0 (g.height - 1)

/-- Number of `Empty` cells. -/
def emptyCount (g : MazeGrid) : ℕ :=
  ((gridCoords g).filter
    (fun p => getCellType g p.1 p.2 = some CellType.Empty)).card

/-- Number of horizontally adjacent `Empty` pairs, keyed by the left cell. -/
def connH (g : MazeGrid) : ℕ :=
  ((gridCoords g).filter
    (fun p => p.1 + 1 ≤ g.width - 1 ∧
      getCellType g p.1 p.2 = some CellType.Empty ∧
      getCellType g (p.1 + 1) p.2 = some CellType.Empty)).card

/-- Number of vertically adjacent `Empty` pairs, keyed by the upper cell. -/
def connV (g : MazeGrid) : ℕ :=
  ((gridCoords g).filter
    (fun p => p.2 + 1 ≤ g.height - 1 ∧
      getCellType g p.1 p.2 = some CellType.Empty ∧
      getCellType g p.1 (p.2 + 1) = some CellType.Empty)).card

/-- Number of grid-adjacent `Empty`-cell pairs (connections). -/
def connectionCount (g : MazeGrid) : ℕ :=
  connH g + connV g

/-- Number of intersections (odd-odd cells) still `Solid`. -/
def solidCrossCount (g : MazeGrid) : ℕ :=
  ((gridCoords g).filter
    (fun p => p.1 % 2 = 1 ∧ p.2 % 2 = 1 ∧
      getCellType g p.1 p.2 = some CellType.Solid)).card

/-- Intersection: both coordinates odd. -/
def IsCross (v : Vector2) : Prop :=
  v.x % 2 = 1 ∧ v.z % 2 = 1

/-- Wall/passage cell between two intersections: exactly one coordinate odd. -/
def IsLink (v : Vector2) : Prop :=
  (v.x % 2 = 1 ∧ v.z % 2 = 0) ∨ (v.x % 2 = 0 ∧ v.z % 2 = 1)


/-- A fixed random stream used by concrete witness runs. -/
def rngW : ℕ → ℕ := fun n => if n = 2 then 2 else 1

/-- The maze produced by `generate 5 3 none none rngW 10` (one carved
corridor on row `z = 1`). -/
def M5grid : MazeGrid :=
  { width := 5, height := 3,
    cells := [CellType.Solid, CellType.Solid, CellType.Solid,
      CellType.Solid, CellType.Solid, CellType.Solid, CellType.Empty,
      CellType.Empty, CellType.Empty, CellType.Solid, CellType.Solid,
      CellType.Solid, CellType.Solid, CellType.Solid, CellType.Solid] }

def M5maze : WilsonMaze :=
  { grid := M5grid, startIndex := 6, goalIndex := 8 }

/-- The maze produced by `generate 2 2 none none (fun _ => 0) 0`
(normalized `3 x 3`, single open cell, start = goal). -/
def m22grid : MazeGrid :=
  { width := 3, height := 3,
    cells := [CellType.Solid, CellType.Solid, CellType.Solid,
      CellType.Solid, CellType.Empty, CellType.Solid, CellType.Solid,
      CellType.Solid, CellType.Solid] }

def m22 : WilsonMaze :=
  { grid := m22grid, startIndex := 4, goalIndex := 4 }


/-- `randomWalk` instrumented with an explicit bounds check on every
read of the cells array: the out-of-bounds branch returns `none`.  Equal
to `randomWalk` whenever the walk starts on the grid (C9). -/
def randomWalkChecked (g : MazeGrid) (rng : ℕ → ℕ) :
    ℕ → ℕ → Vector2 → Path → Option (Path × ℕ)
  | 0, _, _, _ => none
  | fuel + 1, k, curr, path =>
    if ¬ inGrid g curr then none
    else if getCellType g curr.x curr.z = some CellType.Solid then
      let dir := dirOfNat (rng k)
      let nextPos := stepIn curr dir 2
      if nextPos.x < 0 ∨ nextPos.z < 0 ∨ nextPos.x > g.width - 1 ∨
          nextPos.z > g.height - 1 then
        randomWalkChecked g rng fuel (k + 1) curr path
      else
        let path' := mapSet path curr dir
        if getCellType g nextPos.x nextPos.z ≠ some CellType.Solid then
          some (path', k + 1)
        else
          randomWalkChecked g rng fuel (k + 1) nextPos path'
    else
      some (path, k)

/-- `carvePath` instrumented with explicit bounds checks on every read
and write of the cells array. -/
def carvePathChecked (g : MazeGrid) (path : Path) :
    ℕ → Vector2 → Int → Option (MazeGrid × Int)
  | 0, _, _ => none
  | fuel + 1, curr, n =>
    if ¬ inGrid g curr then none
    else if getCellType g curr.x curr.z = some CellType.Solid then
      let g1 := setCellType g curr.x curr.z CellType.Empty
      match mapGet path curr with
      | none => none
      | some dir =>
        let between := stepIn curr dir 1
        if ¬ inGrid g between then none
        else
          let g2 := setCellType g1 between.x between.z CellType.Empty
          carvePathChecked g2 path fuel (stepIn curr dir 2) (n - 1)
    else
      some (g, n)

/-- The generation loop over the checked walk and carve. -/
def generateLoopChecked (rng : ℕ → ℕ) (wfuel : ℕ) :
    ℕ → ℕ → MazeGrid → Int → Option MazeGrid
  | 0, _, g, n => if 0 < n then none else some g
  | fuel + 1, k, g, n =>
    if 0 < n then
      let start := randomOddCell g rng k
      if ¬ inGrid g start then none
      else
        match randomWalkChecked g rng wfuel (k + 2) start [] with
        | none => none
        | some (path, k') =>
          match carvePathChecked g path wfuel start n with
          | none => none
          | some (g', n') => generateLoopChecked rng wfuel fuel k' g' n'
    else
      some g

/-- The constructor instrumented with explicit checks: the start and
goal indices must lie inside the cells array and the start-cell write
must be in range; generation itself runs checked. -/
def generateChecked (width height : Int)
    (startArg goalArg : Option Vector2) (rng : ℕ → ℕ) (fuel : ℕ) :
    Option WilsonMaze :=
  let w := normalizeDim width
  let h := normalizeDim height
  let start := startArg.getD { x := 1, z := 1 }
  let goal := goalArg.getD { x := w - 2, z := h - 2 }
  let startIndex := start.z * w + start.x
  let goalIndex := goal.z * w + goal.x
  if ¬ (0 ≤ startIndex ∧ startIndex < w * h ∧ 0 ≤ goalIndex ∧
      goalIndex < w * h ∧ 0 ≤ start.x ∧ start.x ≤ w - 1 ∧
      0 ≤ start.z ∧ start.z ≤ h - 1) then none
  else
    let g1 := initState w h start
    match generateLoopChecked rng fuel fuel 0 g1 (initUnvisited w h) with
    | none => none
    | some g =>
      some { grid := g, startIndex := startIndex, goalIndex := goalIndex }

end MazeGame

namespace MazeGame

/-! ### Supporting lemmas -/

/-- The source's doc comment for `hash` states it is "perfect for
coordinates in [0, 2^16)": on that domain `hash` is injective, which
justifies modelling the hash-keyed walk `Map` as keyed by the
coordinate itself. -/
theorem hash_injOn (a b : Vector2)
    (ha : 0 ≤ a.x ∧ a.x < 65536 ∧ 0 ≤ a.z ∧ a.z < 65536)
    (hb : 0 ≤ b.x ∧ b.x < 65536 ∧ 0 ≤ b.z ∧ b.z < 65536)
    (h : hash a = hash b) : a = b := by
  obtain ⟨ax, az⟩ := a
  obtain ⟨bx, bz⟩ := b
  simp only [hash] at h
  obtain ⟨ha1, ha2, ha3, ha4⟩ := ha
  obtain ⟨hb1, hb2, hb3, hb4⟩ := hb
  simp only at ha1 ha2 ha3 ha4 hb1 hb2 hb3 hb4
  rw [Int.emod_eq_of_lt ha1 ha2, Int.emod_eq_of_lt ha3 ha4,
    Int.emod_eq_of_lt hb1 hb2, Int.emod_eq_of_lt hb3 hb4] at h
  split_ifs at h <;> (simp only [Vector2.mk.injEq]; omega)

theorem setCellType_width (g : MazeGrid) (x z : Int) (c : CellType) :
    (setCellType g x z c).width = g.width := by
  simp only [setCellType]
  split <;> rfl

theorem setCellType_height (g : MazeGrid) (x z : Int) (c : CellType) :
    (setCellType g x z c).height = g.height := by
  simp only [setCellType]
  split <;> rfl

theorem setCellType_length (g : MazeGrid) (x z : Int) (c : CellType) :
    (setCellType g x z c).cells.length = g.cells.length := by
  simp only [setCellType]
  split
  · exact List.length_set g.cells _ c
  · rfl

theorem carvePath_dims (path : Path) :
    ∀ (fuel : ℕ) (g : MazeGrid) (curr : Vector2) (n : Int)
      (g' : MazeGrid) (n' : Int),
      carvePath g path fuel curr n = some (g', n') →
      g'.width = g.width ∧ g'.height = g.height ∧
        g'.cells.length = g.cells.length := by
  intro fuel
  induction fuel with
  | zero => intro g curr n g' n' h; exact absurd h (by simp [carvePath])
  | succ fuel ih =>
    intro g curr n g' n' h
    simp only [carvePath] at h
    split at h
    · split at h
      · exact absurd h (by simp)
      · have := ih _ _ _ _ _ h
        simpa [setCellType_width, setCellType_height, setCellType_length]
          using this
    · simp only [Option.some.injEq, Prod.mk.injEq] at h
      obtain ⟨rfl, rfl⟩ := h
      exact ⟨rfl, rfl, rfl⟩

theorem generateLoop_dims (rng : ℕ → ℕ) (wfuel : ℕ) :
    ∀ (fuel k : ℕ) (g : MazeGrid) (n : Int) (g' : MazeGrid),
      generateLoop rng wfuel fuel k g n = some g' →
      g'.width = g.width ∧ g'.height = g.height ∧
        g'.cells.length = g.cells.length := by
  intro fuel
  induction fuel with
  | zero =>
    intro k g n g' h
    simp only [generateLoop] at h
    split at h
    · exact absurd h (by simp)
    · obtain rfl : g = g' := by injection h
      exact ⟨rfl, rfl, rfl⟩
  | succ fuel ih =>
    intro k g n g' h
    simp only [generateLoop] at h
    split at h
    · split at h
      · exact absurd h (by simp)
      · split at h
        · exact absurd h (by simp)
        · next g1 n1 heq =>
          have h1 := carvePath_dims _ _ _ _ _ _ _ heq
          have h2 := ih _ _ _ _ h
          exact ⟨h2.1.trans h1.1, h2.2.1.trans h1.2.1, h2.2.2.trans h1.2.2⟩
    · obtain rfl : g = g' := by injection h
      exact ⟨rfl, rfl, rfl⟩

/-- Unpacks a successful `generate` run into its `generateLoop` run and
the constructor-computed fields. -/
theorem generate_elim {width height : Int} {sArg gArg : Option Vector2}
    {rng : ℕ → ℕ} {fuel : ℕ} {m : WilsonMaze}
    (hm : generate width height sArg gArg rng fuel = some m) :
    ∃ g, generateLoop rng fuel fuel 0
        (initState (normalizeDim width) (normalizeDim height)
          (sArg.getD { x := 1, z := 1 }))
        (initUnvisited (normalizeDim width) (normalizeDim height)) = some g ∧
      m = { grid := g,
            startIndex :=
              (sArg.getD { x := 1, z := 1 }).z * normalizeDim width +
                (sArg.getD { x := 1, z := 1 }).x,
            goalIndex :=
              (gArg.getD { x := normalizeDim width - 2,
                           z := normalizeDim height - 2 }).z *
                  normalizeDim width +
                (gArg.getD { x := normalizeDim width - 2,
                             z := normalizeDim height - 2 }).x } := by
  simp only [generate] at hm
  split at hm
  · exact absurd hm (by simp)
  · next g hg =>
    obtain rfl : _ = m := by injection hm
    exact ⟨g, hg, rfl⟩

end MazeGame

namespace MazeGame

/-! ### C6: linearize/delinearize round trip -/

/-- Round trip of the index maps, as a reusable lemma. -/
theorem delinearize_linearize (g : MazeGrid) (x z : Int)
    (hx0 : 0 ≤ x) (hxw : x < g.width) (hz0 : 0 ≤ z) :
    delinearize g (linearize g x z) = { x := x, z := z } := by
  have hw : 0 < g.width := lt_of_le_of_lt hx0 hxw
  have hzw : 0 ≤ z * g.width := mul_nonneg hz0 (le_of_lt hw)
  have hidx : 0 ≤ z * g.width + x := by omega
  have hre : z * g.width + x = x + g.width * z := by ring
  have hx : Int.tmod (z * g.width + x) g.width = x := by
    rw [Int.tmod_eq_emod hidx (le_of_lt hw), hre,
      Int.add_mul_emod_self_left, Int.emod_eq_of_lt hx0 hxw]
  have hz : Int.fdiv (z * g.width + x) g.width = z := by
    rw [Int.fdiv_eq_ediv _ (le_of_lt hw), hre,
      Int.add_mul_ediv_left _ _ (by omega : g.width ≠ 0),
      Int.ediv_eq_zero_of_lt hx0 hxw, zero_add]
  simp only [delinearize, linearize, hx, hz]

/-- C6: for every coordinate `(x, z)` with `0 ≤ x < width` and
`0 ≤ z < height` of a maze grid, `delinearize (linearize x z) = (x, z)`. -/
theorem c6_roundtrip (g : MazeGrid) (x z : Int)
    (hx0 : 0 ≤ x) (hxw : x < g.width) (hz0 : 0 ≤ z) (hzh : z < g.height) :
    delinearize g (linearize g x z) = { x := x, z := z } :=
  delinearize_linearize g x z hx0 hxw hz0

/-- Witness for C6 at `(x, z) = (3, 1)` on a 5 × 3 grid. -/
theorem c6_roundtrip_witness :
    (0 : Int) ≤ 3 ∧ (3 : Int) < 5 ∧ (0 : Int) ≤ 1 ∧ (1 : Int) < 3 ∧
      delinearize { width := 5, height := 3, cells := [] }
          (linearize { width := 5, height := 3, cells := [] } 3 1) =
        { x := 3, z := 1 } :=
  ⟨by decide, by decide, by decide, by decide,
    c6_roundtrip { width := 5, height := 3, cells := [] } 3 1
      (by decide) (by decide) (by decide) (by decide)⟩

/-! ### C7: dimension normalization -/

/-- C7: for every valid requested `(width, height)`, the generated maze's
actual dimensions are odd, at least the requested values, and at most one
larger; even inputs are incremented by 1 and odd inputs are unchanged. -/
theorem c7_normalization (width height : Int) (sArg gArg : Option Vector2)
    (rng : ℕ → ℕ) (fuel : ℕ) (m : WilsonMaze)
    (hw : 1 ≤ width) (hh : 1 ≤ height)
    (hm : generate width height sArg gArg rng fuel = some m) :
    (m.width % 2 = 1 ∧ width ≤ m.width ∧ m.width ≤ width + 1 ∧
      (width % 2 = 0 → m.width = width + 1) ∧
      (width % 2 = 1 → m.width = width)) ∧
    (m.height % 2 = 1 ∧ height ≤ m.height ∧ m.height ≤ height + 1 ∧
      (height % 2 = 0 → m.height = height + 1) ∧
      (height % 2 = 1 → m.height = height)) := by
  obtain ⟨g, hg, rfl⟩ := generate_elim hm
  have hd := generateLoop_dims _ _ _ _ _ _ _ hg
  have hw1 : g.width = normalizeDim width := by
    rw [hd.1]; simp [initState, setCellType_width]
  have hh1 : g.height = normalizeDim height := by
    rw [hd.2.1]; simp [initState, setCellType_height]
  simp only [WilsonMaze.width, WilsonMaze.height, hw1, hh1, normalizeDim]
  constructor <;> (split_ifs <;> omega)

/-- Witness for C7 at `generate 2 2` (even dimensions, normalized to 3). -/
theorem c7_normalization_witness :
    (1 : Int) ≤ 2 ∧
      generate 2 2 none none (fun _ => 0) 1 =
        some { grid := { width := 3, height := 3,
                         cells := [CellType.Solid, CellType.Solid,
                                   CellType.Solid, CellType.Solid,
                                   CellType.Empty, CellType.Solid,
                                   CellType.Solid, CellType.Solid,
                                   CellType.Solid] },
               startIndex := 4, goalIndex := 4 } ∧
      ({ grid := { width := 3, height := 3,
                   cells := [CellType.Solid, CellType.Solid,
                             CellType.Solid, CellType.Solid,
                             CellType.Empty, CellType.Solid,
                             CellType.Solid, CellType.Solid,
                             CellType.Solid] },
         startIndex := 4, goalIndex := 4 } : WilsonMaze).width = 3 :=
  ⟨by decide, by decide,
    ((c7_normalization 2 2 none none (fun _ => 0) 1 _
      (by decide) (by decide) (by decide)).1.2.2.2.1 (by decide))⟩

/-! ### C3: no dimension validation -/

/-- C3 counterexample: `generate(0, 5)` is not rejected — the constructor
returns a maze value. -/
theorem c3_counterexample :
    (generate 0 5 none none (fun _ => 0) 1).isSome = true := by decide

/-- C3 amended: the constructor performs no dimension validation.
`generate(0, 5)` normalizes the width `0` to `1`, allocates a `1 × 5`
grid, marks the start cell, skips the generation loop (the unvisited
counter starts at `-1`), and returns a maze value — for every random
stream and every fuel. -/
theorem c3_no_rejection (rng : ℕ → ℕ) (fuel : ℕ) :
    generate 0 5 none none rng fuel =
      some { grid := { width := 1, height := 5,
                       cells := [CellType.Solid, CellType.Solid,
                                 CellType.Empty, CellType.Solid,
                                 CellType.Solid] },
             startIndex := 2, goalIndex := 2 } := by
  cases fuel <;> rfl

/-! ### C8: the two randomWalk variants agree -/

/-- C8 counterexample: on the 5 × 3 grid whose only carved cell is the
start `(1,1)`, a walk from `(3,1)` that draws `Left` terminates by
stepping directly onto the carved cell — and the two source variants
record exactly the same coordinate-to-direction map, contradicting the
claimed divergence. -/
theorem c8_counterexample :
    isEmptyCell (initState 5 3 { x := 1, z := 1 }) { x := 1, z := 1 } ∧
    stepIn { x := 3, z := 1 } Direction.Left 2 = { x := 1, z := 1 } ∧
    randomWalk (initState 5 3 { x := 1, z := 1 }) (fun _ => 2) 5 2
        { x := 3, z := 1 } [] =
      randomWalkV2 (initState 5 3 { x := 1, z := 1 }) (fun _ => 2) 5 2
        { x := 3, z := 1 } [] := by
  decide

/-- C8 amended: `WilsonMaze.randomWalk` (src/index.ts) and
`Maze.randomWalk` (src/unnamed/part_001) record identical
coordinate-to-direction path maps on every maze state, for every
direction-draw sequence, fuel, draw counter, start cell and accumulated
path — including walks that terminate by stepping onto an
already-carved cell.  Neither variant loses the final recorded
direction. -/
theorem c8_walks_agree (g : MazeGrid) (rng : ℕ → ℕ) :
    ∀ (fuel k : ℕ) (curr : Vector2) (path : Path),
      randomWalk g rng fuel k curr path =
        randomWalkV2 g rng fuel k curr path := by
  intro fuel
  induction fuel with
  | zero => intro k curr path; rfl
  | succ fuel ih =>
    intro k curr path
    simp only [randomWalk, randomWalkV2, ne_eq, ite_not]
    split
    · split
      · exact ih _ _ _
      · split
        · exact ih _ _ _
        · rfl
    · rfl

end MazeGame

namespace MazeGame

/-! ### C4 and C9 counterexamples, C5 -/

/-- C4 counterexample: `generate 1 3` (defaults, a terminating run — the
generation loop is skipped since the unvisited counter starts negative)
produces a maze whose goal coordinate `(width-2, height-2) = (-1, 1)`
addresses — through `linearize` — cell index `0`, which is `Solid`.  The
goal cell of this generated maze is not `Empty`. -/
theorem c4_counterexample :
    generate 1 3 none none (fun _ => 0) 1 =
      some { grid := { width := 1, height := 3,
                       cells := [CellType.Solid, CellType.Solid,
                                 CellType.Empty] },
             startIndex := 2, goalIndex := 0 } ∧
    ¬ isEmptyCell
        { width := 1, height := 3,
          cells := [CellType.Solid, CellType.Solid, CellType.Empty] }
        { x := 1 - 2, z := 3 - 2 } := by
  decide

/-- C9 counterexample: for `generate 1 1` (width = height = 1, within the
claim's `≥ 1` range) the constructor computes `startIndex = 2` and
`goalIndex = -2`, while the normalized grid has `1 * 1 = 1` cell: neither
index satisfies `0 ≤ index < width * height`, and the write
`cells[startIndex] = Empty` is out of bounds. -/
theorem c9_counterexample :
    generate 1 1 none none (fun _ => 0) 1 =
      some { grid := { width := 1, height := 1, cells := [CellType.Solid] },
             startIndex := 2, goalIndex := -2 } ∧
    ¬ ((2 : Int) < 1 * 1) ∧ ¬ ((0 : Int) ≤ -2) := by
  decide

/-- C5 counterexample: in the very first iteration of the generation loop
of `generate 5 5` (the grid is `initState 5 5 (1,1)` there, and the
unvisited counter is `initUnvisited 5 5 = 3 > 0`, so the loop does run),
the random draws `0, 0` make `randomOddCell` select `(1, 1)` — the start
intersection, which is already in the carved set. -/
theorem c5_counterexample :
    0 < initUnvisited (normalizeDim 5) (normalizeDim 5) ∧
    randomOddCell (initState 5 5 { x := 1, z := 1 }) (fun _ => 0) 0 =
      { x := 1, z := 1 } ∧
    isEmptyCell (initState 5 5 { x := 1, z := 1 }) { x := 1, z := 1 } := by
  decide

/-- On an odd grid at least 3 wide and high, `randomOddCell` always
returns an odd-odd coordinate within bounds, for every draw. -/
theorem randomOddCell_spec (g : MazeGrid) (rng : ℕ → ℕ) (k : ℕ)
    (hw : 3 ≤ g.width) (hwo : g.width % 2 = 1)
    (hh : 3 ≤ g.height) (hho : g.height % 2 = 1) :
    inGrid g (randomOddCell g rng k) ∧ IsCross (randomOddCell g rng k) := by
  simp only [randomOddCell, inGrid, IsCross]
  have hwd : (2 : Int) ∣ (g.width - 1) := by omega
  have hhd : (2 : Int) ∣ (g.height - 1) := by omega
  have hw2 : (g.width - 1).fdiv 2 = (g.width - 1) / 2 :=
    Int.fdiv_eq_ediv _ (by omega)
  have hh2 : (g.height - 1).fdiv 2 = (g.height - 1) / 2 :=
    Int.fdiv_eq_ediv _ (by omega)
  have hwc : (g.width - 1) / 2 * 2 = g.width - 1 := Int.ediv_mul_cancel hwd
  have hhc : (g.height - 1) / 2 * 2 = g.height - 1 := Int.ediv_mul_cancel hhd
  have hwp : 0 < ((g.width - 1).fdiv 2).toNat := by
    rw [hw2]; omega
  have hhp : 0 < ((g.height - 1).fdiv 2).toNat := by
    rw [hh2]; omega
  have hxlt : rng k % ((g.width - 1).fdiv 2).toNat <
      ((g.width - 1).fdiv 2).toNat := Nat.mod_lt _ hwp
  have hzlt : rng (k + 1) % ((g.height - 1).fdiv 2).toNat <
      ((g.height - 1).fdiv 2).toNat := Nat.mod_lt _ hhp
  have hxlt' : (↑(rng k % ((g.width - 1).fdiv 2).toNat) : Int) <
      (g.width - 1) / 2 := by
    rw [← hw2]; omega
  have hzlt' : (↑(rng (k + 1) % ((g.height - 1).fdiv 2).toNat) : Int) <
      (g.height - 1) / 2 := by
    rw [← hh2]; omega
  refine ⟨⟨by positivity, by omega, by positivity, by omega⟩, by omega, by omega⟩

/-- C5 amended: the cell chosen to start a random walk is always an
odd-odd coordinate within bounds, but it is NOT guaranteed to be outside
the carved set — `randomOddCell` draws uniformly over all intersections.
When an already-carved intersection is drawn, the iteration is a no-op:
the walk returns immediately with an empty path, the carve loop carves
nothing, and the generation loop proceeds to the next iteration with the
grid and the unvisited counter unchanged (only the draw counter advances
by the two consumed draws). -/
theorem c5_selection (g : MazeGrid) (rng : ℕ → ℕ) (k : ℕ)
    (hw : 3 ≤ g.width) (hwo : g.width % 2 = 1)
    (hh : 3 ≤ g.height) (hho : g.height % 2 = 1) :
    (inGrid g (randomOddCell g rng k) ∧ IsCross (randomOddCell g rng k)) ∧
    ∀ (wfuel fuel : ℕ) (n : Int), 0 < n →
      isEmptyCell g (randomOddCell g rng k) →
      generateLoop rng (wfuel + 1) (fuel + 1) k g n =
        generateLoop rng (wfuel + 1) fuel (k + 2) g n := by
  refine ⟨randomOddCell_spec g rng k hw hwo hh hho, ?_⟩
  intro wfuel fuel n hn hempty
  have hnotsolid : ¬ (getCellType g (randomOddCell g rng k).x
      (randomOddCell g rng k).z = some CellType.Solid) := by
    rw [hempty]; simp
  have hwalk : randomWalk g rng (wfuel + 1) (k + 2) (randomOddCell g rng k)
      [] = some ([], k + 2) := by
    rw [randomWalk, if_neg hnotsolid]
  have hcarve : ∀ p, carvePath g p (wfuel + 1) (randomOddCell g rng k) n =
      some (g, n) := by
    intro p
    rw [carvePath, if_neg hnotsolid]
  simp only [generateLoop, if_pos hn, hwalk, hcarve]

/-- Witness for C5 amended, on the initial 5 × 5 grid with draw stream 0:
the selected cell is the already-carved `(1,1)` and the loop iteration
leaves grid and counter unchanged. -/
theorem c5_selection_witness :
    ((inGrid (initState 5 5 { x := 1, z := 1 })
        (randomOddCell (initState 5 5 { x := 1, z := 1 }) (fun _ => 0) 0) ∧
      IsCross
        (randomOddCell (initState 5 5 { x := 1, z := 1 }) (fun _ => 0) 0)) ∧
      generateLoop (fun _ => 0) 1 1 0 (initState 5 5 { x := 1, z := 1 }) 3 =
        generateLoop (fun _ => 0) 1 0 2 (initState 5 5 { x := 1, z := 1 })
          3) :=
  ⟨(c5_selection (initState 5 5 { x := 1, z := 1 }) (fun _ => 0) 0
      (by decide) (by decide) (by decide) (by decide)).1,
    (c5_selection (initState 5 5 { x := 1, z := 1 }) (fun _ => 0) 0
      (by decide) (by decide) (by decide) (by decide)).2 0 0 3
      (by decide) (by decide)⟩

end MazeGame

namespace MazeGame

/-! ### Pointwise grid lemmas -/

theorem lin_bounds (W H x z : Int)
    (h1 : 0 ≤ x) (h2 : x ≤ W - 1) (h3 : 0 ≤ z) (h4 : z ≤ H - 1) :
    0 ≤ z * W + x ∧ z * W + x < W * H := by
  have hW : 0 < W := by omega
  have hzw : 0 ≤ z * W := mul_nonneg h3 hW.le
  have h5 : z + 1 ≤ H := by omega
  have h6 : (z + 1) * W ≤ H * W := mul_le_mul_of_nonneg_right h5 hW.le
  constructor
  · omega
  · nlinarith [h6]

theorem linearize_inj (g : MazeGrid) (a b : Vector2)
    (ha : inGrid g a) (hb : inGrid g b)
    (h : linearize g a.x a.z = linearize g b.x b.z) : a = b := by
  obtain ⟨ha1, ha2, ha3, _⟩ := ha
  obtain ⟨hb1, hb2, hb3, _⟩ := hb
  have h1 := delinearize_linearize g a.x a.z ha1 (by omega) ha3
  have h2 := delinearize_linearize g b.x b.z hb1 (by omega) hb3
  rw [h] at h1
  rw [h1] at h2
  obtain ⟨ax, az⟩ := a
  obtain ⟨bx, bz⟩ := b
  simpa using h2

/-- Reads at on-grid coordinates succeed when the cell list has the
full length. -/
theorem getCellType_isSome (g : MazeGrid) (v : Vector2)
    (hlen : g.cells.length = (g.width * g.height).toNat)
    (hv : inGrid g v) :
    ∃ c, getCellType g v.x v.z = some c := by
  obtain ⟨h1, h2, h3, h4⟩ := hv
  obtain ⟨hi1, hi2⟩ := lin_bounds g.width g.height v.x v.z h1 h2 h3 h4
  refine ⟨g.cells.get ⟨(linearize g v.x v.z).toNat, ?_⟩, ?_⟩
  · rw [hlen]; unfold linearize; omega
  · simp only [getCellType, if_pos (show 0 ≤ linearize g v.x v.z from hi1)]
    exact List.get?_eq_get _

/-- Writes at on-grid coordinates, read back pointwise. -/
theorem getCellType_setCellType (g : MazeGrid) (c : CellType)
    (u v : Vector2)
    (hlen : g.cells.length = (g.width * g.height).toNat)
    (hu : inGrid g u) (hv : inGrid g v) :
    getCellType (setCellType g u.x u.z c) v.x v.z =
      if v = u then some c else getCellType g v.x v.z := by
  obtain ⟨hu1, hu2, hu3, hu4⟩ := hu
  obtain ⟨hv1, hv2, hv3, hv4⟩ := hv
  obtain ⟨hiu1, hiu2⟩ := lin_bounds g.width g.height u.x u.z hu1 hu2 hu3 hu4
  obtain ⟨hiv1, hiv2⟩ := lin_bounds g.width g.height v.x v.z hv1 hv2 hv3 hv4
  have hlu : linearize g u.x u.z = u.z * g.width + u.x := rfl
  have hlv : linearize g v.x v.z = v.z * g.width + v.x := rfl
  have hsw : setCellType g u.x u.z c =
      { g with cells := g.cells.set (linearize g u.x u.z).toNat c } := by
    simp only [setCellType, if_pos (show 0 ≤ linearize g u.x u.z by omega)]
  rw [hsw]
  simp only [getCellType, linearize] at *
  rw [if_pos (show 0 ≤ v.z * g.width + v.x by omega)]
  rw [List.get?_eq_getElem?, List.getElem?_set]
  by_cases heq : v = u
  · subst heq
    rw [if_pos rfl, if_pos (by omega), if_pos rfl]
  · have hne : (u.z * g.width + u.x).toNat ≠ (v.z * g.width + v.x).toNat := by
      intro hc
      exact heq (linearize_inj g v u ⟨hv1, hv2, hv3, hv4⟩ ⟨hu1, hu2, hu3, hu4⟩
        (by unfold linearize; omega))
    rw [if_neg hne, if_neg heq, if_pos (show 0 ≤ v.z * g.width + v.x by omega),
      List.get?_eq_getElem?]

/-- Cells written by `setCellType` do not change the value elsewhere nor
the value read out of grid; dimensions are untouched (see
`setCellType_width`).  `inGrid` is invariant under `setCellType`. -/
theorem inGrid_setCellType (g : MazeGrid) (x z : Int) (c : CellType)
    (v : Vector2) : inGrid (setCellType g x z c) v ↔ inGrid g v := by
  unfold inGrid
  rw [setCellType_width, setCellType_height]

theorem getCellType_initState_pointwise (w h : Int) (start v : Vector2)
    (hs1 : 0 ≤ start.x) (hs2 : start.x ≤ w - 1)
    (hs3 : 0 ≤ start.z) (hs4 : start.z ≤ h - 1)
    (hv1 : 0 ≤ v.x) (hv2 : v.x ≤ w - 1)
    (hv3 : 0 ≤ v.z) (hv4 : v.z ≤ h - 1) :
    getCellType (initState w h start) v.x v.z =
      if v = start then some CellType.Empty else some CellType.Solid := by
  have hbase : ∀ u : Vector2, 0 ≤ u.x → u.x ≤ w - 1 → 0 ≤ u.z →
      u.z ≤ h - 1 →
      getCellType ⟨w, h, List.replicate (w * h).toNat CellType.Solid⟩
        u.x u.z = some CellType.Solid := by
    intro u h1 h2 h3 h4
    obtain ⟨hi1, hi2⟩ := lin_bounds w h u.x u.z h1 h2 h3 h4
    simp only [getCellType, linearize]
    rw [if_pos (show (0:Int) ≤ u.z * w + u.x from hi1),
      List.get?_eq_getElem?, List.getElem?_replicate, if_pos (by omega)]
  have hlen : (⟨w, h, List.replicate (w * h).toNat CellType.Solid⟩ :
      MazeGrid).cells.length =
      ((⟨w, h, List.replicate (w * h).toNat CellType.Solid⟩ :
        MazeGrid).width *
       (⟨w, h, List.replicate (w * h).toNat CellType.Solid⟩ :
        MazeGrid).height).toNat := by
    simp
  unfold initState
  rw [getCellType_setCellType ⟨w, h, _⟩ CellType.Empty start v hlen
    ⟨hs1, hs2, hs3, hs4⟩ ⟨hv1, hv2, hv3, hv4⟩]
  by_cases heq : v = start
  · rw [if_pos heq, if_pos heq]
  · rw [if_neg heq, if_neg heq, hbase v hv1 hv2 hv3 hv4]

end MazeGame

namespace MazeGame

/-! ### Counting update lemmas -/

theorem mem_gridCoords (g : MazeGrid) (p : Int × Int) :
    p ∈ gridCoords g ↔ inGrid g { x := p.1, z := p.2 } := by
  simp only [gridCoords, inGrid, Finset.mem_product, Finset.mem_Icc]
  tauto

theorem mem_gridCoords' (g : MazeGrid) (p : Int × Int) :
    p ∈ gridCoords g ↔
      0 ≤ p.1 ∧ p.1 ≤ g.width - 1 ∧ 0 ≤ p.2 ∧ p.2 ≤ g.height - 1 :=
  mem_gridCoords g p

theorem gridCoords_setCellType (g : MazeGrid) (x z : Int) (c : CellType) :
    gridCoords (setCellType g x z c) = gridCoords g := by
  unfold gridCoords
  rw [setCellType_width, setCellType_height]

/-- All counting consequences of carving one `Solid` on-grid cell. -/
theorem carve_counts (g : MazeGrid) (c : Vector2)
    (hlen : g.cells.length = (g.width * g.height).toNat)
    (hc : inGrid g c)
    (hsolid : getCellType g c.x c.z = some CellType.Solid) :
    emptyCount (setCellType g c.x c.z CellType.Empty) = emptyCount g + 1 ∧
    connH (setCellType g c.x c.z CellType.Empty) =
      connH g +
        ((if 0 ≤ c.x - 1 ∧ isEmptyCell g { x := c.x - 1, z := c.z }
          then 1 else 0) +
         (if c.x + 1 ≤ g.width - 1 ∧ isEmptyCell g { x := c.x + 1, z := c.z }
          then 1 else 0)) ∧
    connV (setCellType g c.x c.z CellType.Empty) =
      connV g +
        ((if 0 ≤ c.z - 1 ∧ isEmptyCell g { x := c.x, z := c.z - 1 }
          then 1 else 0) +
         (if c.z + 1 ≤ g.height - 1 ∧ isEmptyCell g { x := c.x, z := c.z + 1 }
          then 1 else 0)) ∧
    (IsCross c →
      solidCrossCount g =
        solidCrossCount (setCellType g c.x c.z CellType.Empty) + 1) ∧
    (¬ IsCross c →
      solidCrossCount (setCellType g c.x c.z CellType.Empty) =
        solidCrossCount g) := by
  have hpt : ∀ p : Int × Int, p ∈ gridCoords g →
      getCellType (setCellType g c.x c.z CellType.Empty) p.1 p.2 =
        if p = (c.x, c.z) then some CellType.Empty
        else getCellType g p.1 p.2 := by
    intro p hp
    rw [mem_gridCoords] at hp
    have := getCellType_setCellType g CellType.Empty c
      { x := p.1, z := p.2 } hlen hc hp
    simp only at this
    rw [this]
    by_cases hpe : p = (c.x, c.z)
    · rw [if_pos hpe,
        if_pos (show ({ x := p.1, z := p.2 } : Vector2) = c by
          obtain ⟨p1, p2⟩ := p
          simp only [Prod.mk.injEq] at hpe
          obtain ⟨cx, cz⟩ := c
          simp only at hpe
          simp [hpe])]
    · rw [if_neg hpe,
        if_neg (show ¬ ({ x := p.1, z := p.2 } : Vector2) = c by
          intro hv
          apply hpe
          obtain ⟨p1, p2⟩ := p
          obtain ⟨cx, cz⟩ := c
          simp only [Vector2.mk.injEq] at hv
          simp [hv])]
  have hcoords := gridCoords_setCellType g c.x c.z CellType.Empty
  have hcmem : (c.x, c.z) ∈ gridCoords g := by
    rw [mem_gridCoords]; exact hc
  refine ⟨?_, ?_, ?_, ?_, ?_⟩
  · -- emptyCount
    unfold emptyCount
    rw [hcoords]
    have hset : (gridCoords g).filter
        (fun p => getCellType (setCellType g c.x c.z CellType.Empty)
          p.1 p.2 = some CellType.Empty) =
        insert (c.x, c.z) ((gridCoords g).filter
          (fun p => getCellType g p.1 p.2 = some CellType.Empty)) := by
      ext p
      simp only [Finset.mem_insert, Finset.mem_filter]
      constructor
      · rintro ⟨hp, hval⟩
        rw [hpt p hp] at hval
        by_cases hpe : p = (c.x, c.z)
        · exact Or.inl hpe
        · rw [if_neg hpe] at hval
          exact Or.inr ⟨hp, hval⟩
      · rintro (hpe | ⟨hp, hval⟩)
        · subst hpe
          refine ⟨hcmem, ?_⟩
          rw [hpt _ hcmem, if_pos rfl]
        · refine ⟨hp, ?_⟩
          rw [hpt p hp]
          by_cases hpe : p = (c.x, c.z)
          · subst hpe
            rw [hval] at hsolid
            exact absurd hsolid (by simp)
          · rw [if_neg hpe]; exact hval
    rw [hset, Finset.card_insert_of_not_mem (by
      simp only [Finset.mem_filter, not_and]
      intro _
      rw [hsolid]
      simp)]
  · -- connH
    unfold connH
    rw [hcoords]
    simp only [setCellType_width]
    have hchar : ∀ p : Int × Int,
        p ∈ (gridCoords g).filter (fun p => p.1 + 1 ≤ g.width - 1 ∧
          getCellType (setCellType g c.x c.z CellType.Empty) p.1 p.2 =
            some CellType.Empty ∧
          getCellType (setCellType g c.x c.z CellType.Empty) (p.1 + 1) p.2 =
            some CellType.Empty) ↔
        (p ∈ gridCoords g ∧ p.1 + 1 ≤ g.width - 1 ∧
          (p = (c.x, c.z) ∨ getCellType g p.1 p.2 = some CellType.Empty) ∧
          ((p.1 + 1, p.2) = (c.x, c.z) ∨
            getCellType g (p.1 + 1) p.2 = some CellType.Empty)) := by
      intro p
      rw [Finset.mem_filter]
      constructor
      · rintro ⟨hp, hb, h1, h2⟩
        have hp2 : (p.1 + 1, p.2) ∈ gridCoords g := by
          rw [mem_gridCoords'] at hp ⊢
          simp only
          omega
        rw [hpt p hp] at h1
        rw [hpt _ hp2] at h2
        refine ⟨hp, hb, ?_, ?_⟩
        · by_cases he : p = (c.x, c.z)
          · exact Or.inl he
          · rw [if_neg he] at h1; exact Or.inr h1
        · by_cases he : (p.1 + 1, p.2) = (c.x, c.z)
          · exact Or.inl he
          · rw [if_neg he] at h2; exact Or.inr h2
      · rintro ⟨hp, hb, h1, h2⟩
        have hp2 : (p.1 + 1, p.2) ∈ gridCoords g := by
          rw [mem_gridCoords'] at hp ⊢
          simp only
          omega
        refine ⟨hp, hb, ?_, ?_⟩
        · rw [hpt p hp]
          rcases h1 with he | h1
          · rw [if_pos he]
          · by_cases he : p = (c.x, c.z)
            · rw [if_pos he]
            · rw [if_neg he]; exact h1
        · rw [hpt _ hp2]
          rcases h2 with he | h2
          · rw [if_pos he]
          · by_cases he : (p.1 + 1, p.2) = (c.x, c.z)
            · rw [if_pos he]
            · rw [if_neg he]; exact h2
    have hccoord := (mem_gridCoords' g (c.x, c.z)).mp hcmem
    simp only at hccoord
    have hnotmem_c : ((c.x, c.z) : Int × Int) ∉
        (gridCoords g).filter (fun p => p.1 + 1 ≤ g.width - 1 ∧
          getCellType g p.1 p.2 = some CellType.Empty ∧
          getCellType g (p.1 + 1) p.2 = some CellType.Empty) := by
      rw [Finset.mem_filter]
      rintro ⟨-, -, hcontra, -⟩
      have hcontra2 : getCellType g c.x c.z = some CellType.Empty := hcontra
      rw [hsolid] at hcontra2
      exact absurd hcontra2 (by simp)
    have hnotmem_left : ((c.x - 1, c.z) : Int × Int) ∉
        (gridCoords g).filter (fun p => p.1 + 1 ≤ g.width - 1 ∧
          getCellType g p.1 p.2 = some CellType.Empty ∧
          getCellType g (p.1 + 1) p.2 = some CellType.Empty) := by
      rw [Finset.mem_filter]
      rintro ⟨-, -, -, hcontra⟩
      have hx : ((c.x - 1, c.z) : Int × Int).1 + 1 = c.x := by
        show c.x - 1 + 1 = c.x
        omega
      rw [hx] at hcontra
      have hcontra2 : getCellType g c.x c.z = some CellType.Empty := hcontra
      rw [hsolid] at hcontra2
      exact absurd hcontra2 (by simp)
    by_cases hR : c.x + 1 ≤ g.width - 1 ∧
        isEmptyCell g { x := c.x + 1, z := c.z } <;>
      by_cases hL : 0 ≤ c.x - 1 ∧ isEmptyCell g { x := c.x - 1, z := c.z }
    · -- both horizontal neighbours empty
      rw [if_pos hR, if_pos hL]
      obtain ⟨hR1, hR2⟩ := hR
      obtain ⟨hL1, hL2⟩ := hL
      have hset : (gridCoords g).filter (fun p => p.1 + 1 ≤ g.width - 1 ∧
          getCellType (setCellType g c.x c.z CellType.Empty) p.1 p.2 =
            some CellType.Empty ∧
          getCellType (setCellType g c.x c.z CellType.Empty) (p.1 + 1) p.2 =
            some CellType.Empty) =
          insert (c.x, c.z) (insert (c.x - 1, c.z)
            ((gridCoords g).filter (fun p => p.1 + 1 ≤ g.width - 1 ∧
              getCellType g p.1 p.2 = some CellType.Empty ∧
              getCellType g (p.1 + 1) p.2 = some CellType.Empty))) := by
        ext p
        rw [hchar, Finset.mem_insert, Finset.mem_insert, Finset.mem_filter]
        constructor
        · rintro ⟨hp, hb, h1 | h1, h2 | h2⟩
          · exact Or.inl h1
          · exact Or.inl h1
          · refine Or.inr (Or.inl ?_)
            obtain ⟨p1, p2⟩ := p
            simp only [Prod.mk.injEq] at h2 ⊢
            omega
          · exact Or.inr (Or.inr ⟨hp, hb, h1, h2⟩)
        · rintro (rfl | rfl | ⟨hp, hb, h1, h2⟩)
          · exact ⟨hcmem, hR1, Or.inl rfl, Or.inr hR2⟩
          · refine ⟨?_, show c.x - 1 + 1 ≤ g.width - 1 by omega,
              Or.inr hL2, Or.inl (by
                rw [Prod.mk.injEq]
                exact ⟨show c.x - 1 + 1 = c.x by omega, rfl⟩)⟩
            rw [mem_gridCoords']
            exact ⟨show (0:Int) ≤ c.x - 1 by omega,
              show c.x - 1 ≤ g.width - 1 by omega,
              show (0:Int) ≤ c.z by omega,
              show c.z ≤ g.height - 1 by omega⟩
          · exact ⟨hp, hb, Or.inr h1, Or.inr h2⟩
      rw [hset, Finset.card_insert_of_not_mem, Finset.card_insert_of_not_mem
        hnotmem_left]
      rw [Finset.mem_insert]
      rintro (heq | hmem)
      · rw [Prod.mk.injEq] at heq
        omega
      · exact hnotmem_c hmem
    · -- only the right neighbour empty
      rw [if_pos hR, if_neg hL]
      obtain ⟨hR1, hR2⟩ := hR
      have hset : (gridCoords g).filter (fun p => p.1 + 1 ≤ g.width - 1 ∧
          getCellType (setCellType g c.x c.z CellType.Empty) p.1 p.2 =
            some CellType.Empty ∧
          getCellType (setCellType g c.x c.z CellType.Empty) (p.1 + 1) p.2 =
            some CellType.Empty) =
          insert (c.x, c.z)
            ((gridCoords g).filter (fun p => p.1 + 1 ≤ g.width - 1 ∧
              getCellType g p.1 p.2 = some CellType.Empty ∧
              getCellType g (p.1 + 1) p.2 = some CellType.Empty)) := by
        ext p
        rw [hchar, Finset.mem_insert, Finset.mem_filter]
        constructor
        · rintro ⟨hp, hb, h1 | h1, h2 | h2⟩
          · exact Or.inl h1
          · exact Or.inl h1
          · exfalso
            obtain ⟨p1, p2⟩ := p
            rw [mem_gridCoords'] at hp
            simp only at hp hb h1
            rw [Prod.mk.injEq] at h2
            obtain ⟨hx, hz⟩ := h2
            apply hL
            constructor
            · omega
            · show getCellType g (c.x - 1) c.z = some CellType.Empty
              rw [show c.x - 1 = p1 by omega, ← hz]
              exact h1
          · exact Or.inr ⟨hp, hb, h1, h2⟩
        · rintro (rfl | ⟨hp, hb, h1, h2⟩)
          · exact ⟨hcmem, hR1, Or.inl rfl, Or.inr hR2⟩
          · exact ⟨hp, hb, Or.inr h1, Or.inr h2⟩
      rw [hset, Finset.card_insert_of_not_mem hnotmem_c]
    · -- only the left neighbour empty
      rw [if_neg hR, if_pos hL]
      obtain ⟨hL1, hL2⟩ := hL
      have hset : (gridCoords g).filter (fun p => p.1 + 1 ≤ g.width - 1 ∧
          getCellType (setCellType g c.x c.z CellType.Empty) p.1 p.2 =
            some CellType.Empty ∧
          getCellType (setCellType g c.x c.z CellType.Empty) (p.1 + 1) p.2 =
            some CellType.Empty) =
          insert (c.x - 1, c.z)
            ((gridCoords g).filter (fun p => p.1 + 1 ≤ g.width - 1 ∧
              getCellType g p.1 p.2 = some CellType.Empty ∧
              getCellType g (p.1 + 1) p.2 = some CellType.Empty)) := by
        ext p
        rw [hchar, Finset.mem_insert, Finset.mem_filter]
        constructor
        · rintro ⟨hp, hb, h1 | h1, h2 | h2⟩
          · exfalso
            subst h1
            have h2a : c.x + 1 = c.x := congrArg Prod.fst h2
            omega
          · exfalso
            subst h1
            apply hR
            have hba : c.x + 1 ≤ g.width - 1 := hb
            have h2a : getCellType g (c.x + 1) c.z = some CellType.Empty := h2
            exact ⟨hba, h2a⟩
          · refine Or.inl ?_
            obtain ⟨p1, p2⟩ := p
            simp only [Prod.mk.injEq] at h2 ⊢
            omega
          · exact Or.inr ⟨hp, hb, h1, h2⟩
        · rintro (rfl | ⟨hp, hb, h1, h2⟩)
          · refine ⟨?_, show c.x - 1 + 1 ≤ g.width - 1 by omega,
              Or.inr hL2, Or.inl (by
                rw [Prod.mk.injEq]
                exact ⟨show c.x - 1 + 1 = c.x by omega, rfl⟩)⟩
            rw [mem_gridCoords']
            exact ⟨show (0:Int) ≤ c.x - 1 by omega,
              show c.x - 1 ≤ g.width - 1 by omega,
              show (0:Int) ≤ c.z by omega,
              show c.z ≤ g.height - 1 by omega⟩
          · exact ⟨hp, hb, Or.inr h1, Or.inr h2⟩
      rw [hset, Finset.card_insert_of_not_mem hnotmem_left]
    · -- neither horizontal neighbour empty
      rw [if_neg hR, if_neg hL]
      have hset : (gridCoords g).filter (fun p => p.1 + 1 ≤ g.width - 1 ∧
          getCellType (setCellType g c.x c.z CellType.Empty) p.1 p.2 =
            some CellType.Empty ∧
          getCellType (setCellType g c.x c.z CellType.Empty) (p.1 + 1) p.2 =
            some CellType.Empty) =
          (gridCoords g).filter (fun p => p.1 + 1 ≤ g.width - 1 ∧
            getCellType g p.1 p.2 = some CellType.Empty ∧
            getCellType g (p.1 + 1) p.2 = some CellType.Empty) := by
        ext p
        rw [hchar, Finset.mem_filter]
        constructor
        · rintro ⟨hp, hb, h1 | h1, h2 | h2⟩
          · exfalso
            subst h1
            have h2a : c.x + 1 = c.x := congrArg Prod.fst h2
            omega
          · exfalso
            subst h1
            apply hR
            have hba : c.x + 1 ≤ g.width - 1 := hb
            have h2a : getCellType g (c.x + 1) c.z = some CellType.Empty := h2
            exact ⟨hba, h2a⟩
          · exfalso
            obtain ⟨p1, p2⟩ := p
            rw [mem_gridCoords'] at hp
            simp only at hp hb h1
            rw [Prod.mk.injEq] at h2
            obtain ⟨hx, hz⟩ := h2
            apply hL
            constructor
            · omega
            · show getCellType g (c.x - 1) c.z = some CellType.Empty
              rw [show c.x - 1 = p1 by omega, ← hz]
              exact h1
          · exact ⟨hp, hb, h1, h2⟩
        · rintro ⟨hp, hb, h1, h2⟩
          exact ⟨hp, hb, Or.inr h1, Or.inr h2⟩
      rw [hset]
      omega
  · -- connV
    unfold connV
    rw [hcoords]
    simp only [setCellType_height]
    have hchar : ∀ p : Int × Int,
        p ∈ (gridCoords g).filter (fun p => p.2 + 1 ≤ g.height - 1 ∧
          getCellType (setCellType g c.x c.z CellType.Empty) p.1 p.2 =
            some CellType.Empty ∧
          getCellType (setCellType g c.x c.z CellType.Empty) p.1 (p.2 + 1) =
            some CellType.Empty) ↔
        (p ∈ gridCoords g ∧ p.2 + 1 ≤ g.height - 1 ∧
          (p = (c.x, c.z) ∨ getCellType g p.1 p.2 = some CellType.Empty) ∧
          ((p.1, p.2 + 1) = (c.x, c.z) ∨
            getCellType g p.1 (p.2 + 1) = some CellType.Empty)) := by
      intro p
      rw [Finset.mem_filter]
      constructor
      · rintro ⟨hp, hb, h1, h2⟩
        have hp2 : (p.1, p.2 + 1) ∈ gridCoords g := by
          rw [mem_gridCoords'] at hp ⊢
          simp only
          omega
        rw [hpt p hp] at h1
        rw [hpt _ hp2] at h2
        refine ⟨hp, hb, ?_, ?_⟩
        · by_cases he : p = (c.x, c.z)
          · exact Or.inl he
          · rw [if_neg he] at h1; exact Or.inr h1
        · by_cases he : (p.1, p.2 + 1) = (c.x, c.z)
          · exact Or.inl he
          · rw [if_neg he] at h2; exact Or.inr h2
      · rintro ⟨hp, hb, h1, h2⟩
        have hp2 : (p.1, p.2 + 1) ∈ gridCoords g := by
          rw [mem_gridCoords'] at hp ⊢
          simp only
          omega
        refine ⟨hp, hb, ?_, ?_⟩
        · rw [hpt p hp]
          rcases h1 with he | h1
          · rw [if_pos he]
          · by_cases he : p = (c.x, c.z)
            · rw [if_pos he]
            · rw [if_neg he]; exact h1
        · rw [hpt _ hp2]
          rcases h2 with he | h2
          · rw [if_pos he]
          · by_cases he : (p.1, p.2 + 1) = (c.x, c.z)
            · rw [if_pos he]
            · rw [if_neg he]; exact h2
    have hccoord := (mem_gridCoords' g (c.x, c.z)).mp hcmem
    simp only at hccoord
    have hnotmem_c : ((c.x, c.z) : Int × Int) ∉
        (gridCoords g).filter (fun p => p.2 + 1 ≤ g.height - 1 ∧
          getCellType g p.1 p.2 = some CellType.Empty ∧
          getCellType g p.1 (p.2 + 1) = some CellType.Empty) := by
      rw [Finset.mem_filter]
      rintro ⟨-, -, hcontra, -⟩
      have hcontra2 : getCellType g c.x c.z = some CellType.Empty := hcontra
      rw [hsolid] at hcontra2
      exact absurd hcontra2 (by simp)
    have hnotmem_up : ((c.x, c.z - 1) : Int × Int) ∉
        (gridCoords g).filter (fun p => p.2 + 1 ≤ g.height - 1 ∧
          getCellType g p.1 p.2 = some CellType.Empty ∧
          getCellType g p.1 (p.2 + 1) = some CellType.Empty) := by
      rw [Finset.mem_filter]
      rintro ⟨-, -, -, hcontra⟩
      have hz : ((c.x, c.z - 1) : Int × Int).2 + 1 = c.z := by
        show c.z - 1 + 1 = c.z
        omega
      rw [hz] at hcontra
      have hcontra2 : getCellType g c.x c.z = some CellType.Empty := hcontra
      rw [hsolid] at hcontra2
      exact absurd hcontra2 (by simp)
    by_cases hD : c.z + 1 ≤ g.height - 1 ∧
        isEmptyCell g { x := c.x, z := c.z + 1 } <;>
      by_cases hU : 0 ≤ c.z - 1 ∧ isEmptyCell g { x := c.x, z := c.z - 1 }
    · -- both vertical neighbours empty
      rw [if_pos hD, if_pos hU]
      obtain ⟨hD1, hD2⟩ := hD
      obtain ⟨hU1, hU2⟩ := hU
      have hset : (gridCoords g).filter (fun p => p.2 + 1 ≤ g.height - 1 ∧
          getCellType (setCellType g c.x c.z CellType.Empty) p.1 p.2 =
            some CellType.Empty ∧
          getCellType (setCellType g c.x c.z CellType.Empty) p.1 (p.2 + 1) =
            some CellType.Empty) =
          insert (c.x, c.z) (insert (c.x, c.z - 1)
            ((gridCoords g).filter (fun p => p.2 + 1 ≤ g.height - 1 ∧
              getCellType g p.1 p.2 = some CellType.Empty ∧
              getCellType g p.1 (p.2 + 1) = some CellType.Empty))) := by
        ext p
        rw [hchar, Finset.mem_insert, Finset.mem_insert, Finset.mem_filter]
        constructor
        · rintro ⟨hp, hb, h1 | h1, h2 | h2⟩
          · exact Or.inl h1
          · exact Or.inl h1
          · refine Or.inr (Or.inl ?_)
            obtain ⟨p1, p2⟩ := p
            simp only [Prod.mk.injEq] at h2 ⊢
            omega
          · exact Or.inr (Or.inr ⟨hp, hb, h1, h2⟩)
        · rintro (rfl | rfl | ⟨hp, hb, h1, h2⟩)
          · exact ⟨hcmem, hD1, Or.inl rfl, Or.inr hD2⟩
          · refine ⟨?_, show c.z - 1 + 1 ≤ g.height - 1 by omega,
              Or.inr hU2, Or.inl (by
                rw [Prod.mk.injEq]
                exact ⟨rfl, show c.z - 1 + 1 = c.z by omega⟩)⟩
            rw [mem_gridCoords']
            exact ⟨show (0:Int) ≤ c.x by omega,
              show c.x ≤ g.width - 1 by omega,
              show (0:Int) ≤ c.z - 1 by omega,
              show c.z - 1 ≤ g.height - 1 by omega⟩
          · exact ⟨hp, hb, Or.inr h1, Or.inr h2⟩
      rw [hset, Finset.card_insert_of_not_mem, Finset.card_insert_of_not_mem
        hnotmem_up]
      rw [Finset.mem_insert]
      rintro (heq | hmem)
      · rw [Prod.mk.injEq] at heq
        omega
      · exact hnotmem_c hmem
    · -- only the lower neighbour empty
      rw [if_pos hD, if_neg hU]
      obtain ⟨hD1, hD2⟩ := hD
      have hset : (gridCoords g).filter (fun p => p.2 + 1 ≤ g.height - 1 ∧
          getCellType (setCellType g c.x c.z CellType.Empty) p.1 p.2 =
            some CellType.Empty ∧
          getCellType (setCellType g c.x c.z CellType.Empty) p.1 (p.2 + 1) =
            some CellType.Empty) =
          insert (c.x, c.z)
            ((gridCoords g).filter (fun p => p.2 + 1 ≤ g.height - 1 ∧
              getCellType g p.1 p.2 = some CellType.Empty ∧
              getCellType g p.1 (p.2 + 1) = some CellType.Empty)) := by
        ext p
        rw [hchar, Finset.mem_insert, Finset.mem_filter]
        constructor
        · rintro ⟨hp, hb, h1 | h1, h2 | h2⟩
          · exact Or.inl h1
          · exact Or.inl h1
          · exfalso
            obtain ⟨p1, p2⟩ := p
            rw [mem_gridCoords'] at hp
            simp only at hp hb h1
            rw [Prod.mk.injEq] at h2
            obtain ⟨hx, hz⟩ := h2
            apply hU
            constructor
            · omega
            · show getCellType g c.x (c.z - 1) = some CellType.Empty
              rw [show c.z - 1 = p2 by omega, ← hx]
              exact h1
          · exact Or.inr ⟨hp, hb, h1, h2⟩
        · rintro (rfl | ⟨hp, hb, h1, h2⟩)
          · exact ⟨hcmem, hD1, Or.inl rfl, Or.inr hD2⟩
          · exact ⟨hp, hb, Or.inr h1, Or.inr h2⟩
      rw [hset, Finset.card_insert_of_not_mem hnotmem_c]
    · -- only the upper neighbour empty
      rw [if_neg hD, if_pos hU]
      obtain ⟨hU1, hU2⟩ := hU
      have hset : (gridCoords g).filter (fun p => p.2 + 1 ≤ g.height - 1 ∧
          getCellType (setCellType g c.x c.z CellType.Empty) p.1 p.2 =
            some CellType.Empty ∧
          getCellType (setCellType g c.x c.z CellType.Empty) p.1 (p.2 + 1) =
            some CellType.Empty) =
          insert (c.x, c.z - 1)
            ((gridCoords g).filter (fun p => p.2 + 1 ≤ g.height - 1 ∧
              getCellType g p.1 p.2 = some CellType.Empty ∧
              getCellType g p.1 (p.2 + 1) = some CellType.Empty)) := by
        ext p
        rw [hchar, Finset.mem_insert, Finset.mem_filter]
        constructor
        · rintro ⟨hp, hb, h1 | h1, h2 | h2⟩
          · exfalso
            subst h1
            have h2a : c.z + 1 = c.z := congrArg Prod.snd h2
            omega
          · exfalso
            subst h1
            apply hD
            have hba : c.z + 1 ≤ g.height - 1 := hb
            have h2a : getCellType g c.x (c.z + 1) = some CellType.Empty := h2
            exact ⟨hba, h2a⟩
          · refine Or.inl ?_
            obtain ⟨p1, p2⟩ := p
            simp only [Prod.mk.injEq] at h2 ⊢
            omega
          · exact Or.inr ⟨hp, hb, h1, h2⟩
        · rintro (rfl | ⟨hp, hb, h1, h2⟩)
          · refine ⟨?_, show c.z - 1 + 1 ≤ g.height - 1 by omega,
              Or.inr hU2, Or.inl (by
                rw [Prod.mk.injEq]
                exact ⟨rfl, show c.z - 1 + 1 = c.z by omega⟩)⟩
            rw [mem_gridCoords']
            exact ⟨show (0:Int) ≤ c.x by omega,
              show c.x ≤ g.width - 1 by omega,
              show (0:Int) ≤ c.z - 1 by omega,
              show c.z - 1 ≤ g.height - 1 by omega⟩
          · exact ⟨hp, hb, Or.inr h1, Or.inr h2⟩
      rw [hset, Finset.card_insert_of_not_mem hnotmem_up]
    · -- neither vertical neighbour empty
      rw [if_neg hD, if_neg hU]
      have hset : (gridCoords g).filter (fun p => p.2 + 1 ≤ g.height - 1 ∧
          getCellType (setCellType g c.x c.z CellType.Empty) p.1 p.2 =
            some CellType.Empty ∧
          getCellType (setCellType g c.x c.z CellType.Empty) p.1 (p.2 + 1) =
            some CellType.Empty) =
          (gridCoords g).filter (fun p => p.2 + 1 ≤ g.height - 1 ∧
            getCellType g p.1 p.2 = some CellType.Empty ∧
            getCellType g p.1 (p.2 + 1) = some CellType.Empty) := by
        ext p
        rw [hchar, Finset.mem_filter]
        constructor
        · rintro ⟨hp, hb, h1 | h1, h2 | h2⟩
          · exfalso
            subst h1
            have h2a : c.z + 1 = c.z := congrArg Prod.snd h2
            omega
          · exfalso
            subst h1
            apply hD
            have hba : c.z + 1 ≤ g.height - 1 := hb
            have h2a : getCellType g c.x (c.z + 1) = some CellType.Empty := h2
            exact ⟨hba, h2a⟩
          · exfalso
            obtain ⟨p1, p2⟩ := p
            rw [mem_gridCoords'] at hp
            simp only at hp hb h1
            rw [Prod.mk.injEq] at h2
            obtain ⟨hx, hz⟩ := h2
            apply hU
            constructor
            · omega
            · show getCellType g c.x (c.z - 1) = some CellType.Empty
              rw [show c.z - 1 = p2 by omega, ← hx]
              exact h1
          · exact ⟨hp, hb, h1, h2⟩
        · rintro ⟨hp, hb, h1, h2⟩
          exact ⟨hp, hb, Or.inr h1, Or.inr h2⟩
      rw [hset]
      omega
  · -- solidCrossCount decreases by one when carving an intersection
    intro hcross
    unfold solidCrossCount
    rw [hcoords]
    have hset : (gridCoords g).filter (fun p => p.1 % 2 = 1 ∧ p.2 % 2 = 1 ∧
        getCellType (setCellType g c.x c.z CellType.Empty) p.1 p.2 =
          some CellType.Solid) =
        ((gridCoords g).filter (fun p => p.1 % 2 = 1 ∧ p.2 % 2 = 1 ∧
          getCellType g p.1 p.2 = some CellType.Solid)).erase (c.x, c.z) := by
      ext p
      rw [Finset.mem_erase, Finset.mem_filter, Finset.mem_filter]
      constructor
      · rintro ⟨hp, h1, h2, h3⟩
        rw [hpt p hp] at h3
        by_cases he : p = (c.x, c.z)
        · rw [if_pos he] at h3
          exact absurd h3 (by simp)
        · rw [if_neg he] at h3
          exact ⟨he, hp, h1, h2, h3⟩
      · rintro ⟨hne, hp, h1, h2, h3⟩
        refine ⟨hp, h1, h2, ?_⟩
        rw [hpt p hp, if_neg hne]
        exact h3
    have hmem : ((c.x, c.z) : Int × Int) ∈
        (gridCoords g).filter (fun p => p.1 % 2 = 1 ∧ p.2 % 2 = 1 ∧
          getCellType g p.1 p.2 = some CellType.Solid) := by
      rw [Finset.mem_filter]
      exact ⟨hcmem, hcross.1, hcross.2, hsolid⟩
    rw [hset, Finset.card_erase_of_mem hmem]
    have hpos : 0 < ((gridCoords g).filter (fun p => p.1 % 2 = 1 ∧
        p.2 % 2 = 1 ∧ getCellType g p.1 p.2 = some CellType.Solid)).card :=
      Finset.card_pos.mpr ⟨_, hmem⟩
    omega
  · -- carving a non-intersection leaves solidCrossCount unchanged
    intro hncross
    unfold solidCrossCount
    rw [hcoords]
    congr 1
    ext p
    rw [Finset.mem_filter, Finset.mem_filter]
    constructor
    · rintro ⟨hp, h1, h2, h3⟩
      rw [hpt p hp] at h3
      by_cases he : p = (c.x, c.z)
      · rw [if_pos he] at h3
        exact absurd h3 (by simp)
      · rw [if_neg he] at h3
        exact ⟨hp, h1, h2, h3⟩
    · rintro ⟨hp, h1, h2, h3⟩
      refine ⟨hp, h1, h2, ?_⟩
      rw [hpt p hp]
      by_cases he : p = (c.x, c.z)
      · exfalso
        apply hncross
        subst he
        exact ⟨h1, h2⟩
      · rw [if_neg he]
        exact h3

end MazeGame

namespace MazeGame

/-! ### Geometry helpers -/

theorem Vector2.ext' (a b : Vector2) (hx : a.x = b.x) (hz : a.z = b.z) :
    a = b := by
  cases a; cases b; simp_all

def oppDir : Direction → Direction
  | Direction.Up => Direction.Down
  | Direction.Down => Direction.Up
  | Direction.Left => Direction.Right
  | Direction.Right => Direction.Left

theorem stepIn_opp (v : Vector2) (d : Direction) (s : Int) :
    stepIn (stepIn v d s) (oppDir d) s = v := by
  cases d <;> apply Vector2.ext' <;> simp [stepIn, oppDir] <;> omega

theorem stepIn_two (v : Vector2) (d : Direction) :
    stepIn v d 2 = stepIn (stepIn v d 1) d 1 := by
  cases d <;> apply Vector2.ext' <;> simp [stepIn] <;> omega

theorem stepIn_one_opp (v : Vector2) (d : Direction) :
    stepIn (stepIn v d 2) (oppDir d) 1 = stepIn v d 1 := by
  cases d <;> apply Vector2.ext' <;> simp [stepIn, oppDir] <;> omega

theorem stepIn_parity2 (v : Vector2) (d : Direction) (h : IsCross v) :
    IsCross (stepIn v d 2) := by
  obtain ⟨h1, h2⟩ := h
  unfold IsCross
  cases d <;> simp [stepIn] <;> omega

theorem stepIn_link (v : Vector2) (d : Direction) (h : IsCross v) :
    IsLink (stepIn v d 1) := by
  obtain ⟨h1, h2⟩ := h
  unfold IsLink
  cases d
  · refine Or.inl ⟨?_, ?_⟩ <;> simp [stepIn] <;> omega
  · refine Or.inl ⟨?_, ?_⟩ <;> simp [stepIn] <;> omega
  · refine Or.inr ⟨?_, ?_⟩ <;> simp [stepIn] <;> omega
  · refine Or.inr ⟨?_, ?_⟩ <;> simp [stepIn] <;> omega

theorem stepIn_ne2 (v : Vector2) (d : Direction) : stepIn v d 2 ≠ v := by
  intro h
  have hx := congrArg Vector2.x h
  have hz := congrArg Vector2.z h
  cases d <;> simp [stepIn] at hx hz <;> omega

theorem cross_ne_link (a b : Vector2) (ha : IsCross a) (hb : IsLink b) :
    a ≠ b := by
  intro h
  subst h
  rcases hb with ⟨h1, h2⟩ | ⟨h1, h2⟩ <;> (obtain ⟨c1, c2⟩ := ha; omega)

theorem inGrid_between (g : MazeGrid) (v : Vector2) (d : Direction)
    (h1 : inGrid g v) (h2 : inGrid g (stepIn v d 2)) :
    inGrid g (stepIn v d 1) := by
  obtain ⟨a1, a2, a3, a4⟩ := h1
  obtain ⟨b1, b2, b3, b4⟩ := h2
  unfold inGrid at *
  cases d <;> simp [stepIn] at * <;> omega

theorem notOOB_inGrid (g : MazeGrid) (p : Vector2)
    (h : ¬(p.x < 0 ∨ p.z < 0 ∨ p.x > g.width - 1 ∨ p.z > g.height - 1)) :
    inGrid g p := by
  push_neg at h
  exact ⟨h.1, by omega, h.2.1, by omega⟩

theorem mapGet_mapSet (p : Path) (k v : Vector2) (d : Direction) :
    mapGet (mapSet p k d) v = if k = v then some d else mapGet p v := by
  induction p with
  | nil =>
    simp only [mapSet, mapGet]
  | cons hd tl ih =>
    obtain ⟨k', d'⟩ := hd
    simp only [mapSet]
    by_cases hk : k' = k
    · subst hk
      simp only [if_pos rfl, mapGet]
      by_cases hv : k' = v <;> simp [hv]
    · rw [if_neg hk]
      simp only [mapGet]
      rw [ih]
      by_cases hv : k' = v
      · by_cases hkv : k = v
        · exact absurd (hv.trans hkv.symm) hk
        · rw [if_pos hv, if_neg hkv, if_pos hv]
      · by_cases hkv : k = v
        · rw [if_neg hv, if_pos hkv, if_pos hkv]
        · rw [if_neg hv, if_neg hkv, if_neg hkv, if_neg hv]

/-! ### Invariants -/

/-- Structural facts preserved by every step of generation. -/
structure BasicInv (g : MazeGrid) : Prop where
  w3 : 3 ≤ g.width
  h3 : 3 ≤ g.height
  wodd : g.width % 2 = 1
  hodd : g.height % 2 = 1
  len : g.cells.length = (g.width * g.height).toNat
  startEmpty : isEmptyCell g { x := 1, z := 1 }
  emptyValid : ∀ v, inGrid g v → isEmptyCell g v →
    (1 ≤ v.x ∧ v.x ≤ g.width - 2 ∧ 1 ≤ v.z ∧ v.z ≤ g.height - 2) ∧
    (IsCross v ∨ IsLink v)

/-- Every `Empty` link has all its adjacent intersections `Empty`, with
one optional exception (the pending link during a carve). -/
def LinkInvExcept (g : MazeGrid) (e : Option Vector2) : Prop :=
  ∀ v, inGrid g v → isEmptyCell g v → IsLink v → some v ≠ e →
    ∀ d, IsCross (stepIn v d 1) → isEmptyCell g (stepIn v d 1)

/-- Every `Empty` cell is reachable from the start `(1,1)`. -/
def ConnAll (g : MazeGrid) : Prop :=
  ∀ v, inGrid g v → isEmptyCell g v → reachesFrom g { x := 1, z := 1 } v

/-- The spanning-tree count: `Empty` cells = connections + 1. -/
def CountOk (g : MazeGrid) : Prop :=
  emptyCount g = connectionCount g + 1

/-- The full between-iterations invariant of the generation loop. -/
def FullInv (g : MazeGrid) : Prop :=
  BasicInv g ∧ LinkInvExcept g none ∧ ConnAll g ∧ CountOk g

/-- What `randomWalk` guarantees about its recorded path, relative to the
grid `g` the walk ran on: every recorded step starts at an on-grid
intersection and lands on the grid, and following recorded directions
from cells that are `Solid` in `g` strictly decreases `rank` (the
last-exit order of the loop-erased walk), so the replay cannot cycle. -/
def PathOk (g : MazeGrid) (path : Path) (rank : Vector2 → ℕ) : Prop :=
  ∀ v d, mapGet path v = some d →
    (inGrid g v ∧ IsCross v ∧ inGrid g (stepIn v d 2)) ∧
    (getCellType g v.x v.z = some CellType.Solid →
      rank (stepIn v d 2) < rank v)

/-- Old `Empty` cells stay `Empty`; cells `Solid` now were `Solid` at the
start of the carve. -/
def CellsMono (g0 g : MazeGrid) : Prop :=
  (∀ v, inGrid g0 v → isEmptyCell g0 v → isEmptyCell g v) ∧
  (∀ v, inGrid g0 v → getCellType g v.x v.z = some CellType.Solid →
    getCellType g0 v.x v.z = some CellType.Solid)

/-- Every intersection carved so far in this replay has `rank` above the
current position (ranks strictly decrease along the replayed path). -/
def CarvedRank (g0 g : MazeGrid) (rank : Vector2 → ℕ) (curr : Vector2) :
    Prop :=
  ∀ v, inGrid g v → IsCross v → isEmptyCell g v →
    getCellType g0 v.x v.z = some CellType.Solid → rank curr < rank v

/-- Mid-replay state: the prefix carved so far hangs off the pending
link `stepIn prev dPrev 1` next to the current position. -/
def MidInv (g0 g : MazeGrid) (path : Path) (rank : Vector2 → ℕ)
    (curr : Vector2) : Prop :=
  getCellType g curr.x curr.z = some CellType.Solid ∧
  ∃ prev dPrev, mapGet path prev = some dPrev ∧
    getCellType g0 prev.x prev.z = some CellType.Solid ∧
    stepIn prev dPrev 2 = curr ∧
    inGrid g prev ∧ IsCross prev ∧
    isEmptyCell g prev ∧
    isEmptyCell g (stepIn prev dPrev 1) ∧
    LinkInvExcept g (some (stepIn prev dPrev 1)) ∧
    emptyCount g = connectionCount g + 2 ∧
    (∀ v, inGrid g v → isEmptyCell g v →
      reachesFrom g { x := 1, z := 1 } v ∨
        reachesFrom g (stepIn prev dPrev 1) v)

/-- Loop invariant of the carve loop, at the top of each iteration. -/
def CarveState (g0 g : MazeGrid) (path : Path) (rank : Vector2 → ℕ)
    (curr : Vector2) : Prop :=
  BasicInv g ∧ g.width = g0.width ∧ g.height = g0.height ∧
  inGrid g curr ∧ IsCross curr ∧
  CellsMono g0 g ∧
  (∀ v, inGrid g0 v → isEmptyCell g0 v →
    reachesFrom g { x := 1, z := 1 } v) ∧
  CarvedRank g0 g rank curr ∧
  ((LinkInvExcept g none ∧ ConnAll g ∧ CountOk g) ∨
    MidInv g0 g path rank curr)

end MazeGame

namespace MazeGame

/-! ### Reachability helpers -/

theorem emptyStep_symm (g : MazeGrid) :
    ∀ a b, emptyStep g a b → emptyStep g b a := by
  rintro a b ⟨ha, hb, hea, heb, d, hd⟩
  exact ⟨hb, ha, heb, hea, oppDir d, by rw [← hd, stepIn_opp]⟩

theorem reaches_symm (g : MazeGrid) (a b : Vector2)
    (h : reachesFrom g a b) : reachesFrom g b a :=
  Relation.ReflTransGen.symmetric (emptyStep_symm g) h

theorem reaches_mono (g g' : MazeGrid) (hw : g'.width = g.width)
    (hh : g'.height = g.height)
    (hmono : ∀ v, inGrid g v → isEmptyCell g v → isEmptyCell g' v)
    (a b : Vector2) (h : reachesFrom g a b) : reachesFrom g' a b := by
  refine Relation.ReflTransGen.mono ?_ h
  rintro x y ⟨hx, hy, hex, hey, hd⟩
  have hx' : inGrid g' x := by unfold inGrid at *; rw [hw, hh]; exact hx
  have hy' : inGrid g' y := by unfold inGrid at *; rw [hw, hh]; exact hy
  exact ⟨hx', hy', hmono x hx hex, hmono y hy hey, hd⟩

theorem reaches_step (g : MazeGrid) (a b : Vector2) (h : emptyStep g a b) :
    reachesFrom g a b :=
  Relation.ReflTransGen.single h

/-! ### The walk lemma -/

/-- A terminating `randomWalk` produces a path record satisfying
`PathOk`: recorded steps are valid, and along cells still `Solid` the
recorded directions strictly decrease a rank (the last-exit structure of
the loop-erased walk). -/
theorem randomWalk_pathOk (g : MazeGrid) (rng : ℕ → ℕ) :
    ∀ (fuel k : ℕ) (curr : Vector2) (path : Path) (rank : Vector2 → ℕ),
      inGrid g curr → IsCross curr →
      (∀ v d, mapGet path v = some d →
        (inGrid g v ∧ IsCross v ∧ inGrid g (stepIn v d 2)) ∧
        (v ≠ curr → rank (stepIn v d 2) < rank v)) →
      ∀ path' k', randomWalk g rng fuel k curr path = some (path', k') →
      ∃ rank', PathOk g path' rank' := by
  intro fuel
  induction fuel with
  | zero =>
    intro k curr path rank _ _ _ path' k' h
    exact absurd h (by simp [randomWalk])
  | succ fuel ih =>
    intro k curr path rank hcg hcc hacc path' k' h
    simp only [randomWalk] at h
    split at h
    · -- curr is Solid
      next hsolid =>
      split at h
      · -- out-of-bounds step: redraw
        exact ih (k + 1) curr path rank hcg hcc hacc path' k' h
      · -- in-bounds step
        next hoob =>
        have hnext : inGrid g (stepIn curr (dirOfNat (rng k)) 2) :=
          notOOB_inGrid g _ hoob
        have hnextc : IsCross (stepIn curr (dirOfNat (rng k)) 2) :=
          stepIn_parity2 _ _ hcc
        have hnen : stepIn curr (dirOfNat (rng k)) 2 ≠ curr :=
          stepIn_ne2 _ _
        have hcn : ¬ curr = stepIn curr (dirOfNat (rng k)) 2 :=
          fun hh => hnen hh.symm
        obtain ⟨rank2, hrank2⟩ : ∃ rank2 : Vector2 → ℕ, rank2 =
            fun u => if u = stepIn curr (dirOfNat (rng k)) 2 then 0
              else if u = curr then 1 else rank u + 2 := ⟨_, rfl⟩
        have hr0 : rank2 (stepIn curr (dirOfNat (rng k)) 2) = 0 := by
          rw [hrank2]; simp
        have hr1 : rank2 curr = 1 := by
          rw [hrank2]; simp [hcn]
        have hrelse : ∀ u, u ≠ stepIn curr (dirOfNat (rng k)) 2 →
            u ≠ curr → rank2 u = rank u + 2 := by
          intro u h1 h2
          rw [hrank2]; simp [h1, h2]
        have hrles : ∀ u, rank2 u ≤ rank u + 2 := by
          intro u
          by_cases h1 : u = stepIn curr (dirOfNat (rng k)) 2
          · rw [h1, hr0]; omega
          · by_cases h2 : u = curr
            · rw [h2, hr1]; omega
            · rw [hrelse u h1 h2]
        have hacc' : ∀ v d,
            mapGet (mapSet path curr (dirOfNat (rng k))) v = some d →
            ((inGrid g v ∧ IsCross v ∧ inGrid g (stepIn v d 2)) ∧
             (v ≠ stepIn curr (dirOfNat (rng k)) 2 →
              rank2 (stepIn v d 2) < rank2 v)) := by
          intro v d hv
          rw [mapGet_mapSet] at hv
          by_cases hvc : curr = v
          · rw [if_pos hvc] at hv
            obtain rfl : dirOfNat (rng k) = d := by injection hv
            subst hvc
            refine ⟨⟨hcg, hcc, hnext⟩, ?_⟩
            intro _
            rw [hr0, hr1]
            omega
          · rw [if_neg hvc] at hv
            obtain ⟨hval, hdec⟩ := hacc v d hv
            refine ⟨hval, ?_⟩
            intro hne
            have hvc' : v ≠ curr := fun hh => hvc hh.symm
            have hdec' := hdec hvc'
            rw [hrelse v hne hvc']
            have := hrles (stepIn v d 2)
            omega
        split at h
        · -- the step lands on a non-Solid cell: stop, record included
          next hns =>
          simp only [Option.some.injEq, Prod.mk.injEq] at h
          obtain ⟨rfl, rfl⟩ := h
          refine ⟨rank2, ?_⟩
          intro v d hv
          obtain ⟨hval, hdec⟩ := hacc' v d hv
          refine ⟨hval, ?_⟩
          intro hvs
          by_cases hvn : v = stepIn curr (dirOfNat (rng k)) 2
          · exfalso
            apply hns
            rw [← hvn]
            exact hvs
          · exact hdec hvn
        · -- the step lands on a Solid cell: continue from there
          exact ih (k + 1) (stepIn curr (dirOfNat (rng k)) 2)
            (mapSet path curr (dirOfNat (rng k))) rank2
            hnext hnextc hacc' path' k' h
    · -- curr is not Solid: the walk returns the accumulated path
      next hnsolid =>
      simp only [Option.some.injEq, Prod.mk.injEq] at h
      obtain ⟨rfl, rfl⟩ := h
      refine ⟨rank, ?_⟩
      intro v d hv
      obtain ⟨hval, hdec⟩ := hacc v d hv
      refine ⟨hval, ?_⟩
      intro hvs
      by_cases hvc : v = curr
      · exfalso
        apply hnsolid
        rw [← hvc]
        exact hvs
      · exact hdec hvc

end MazeGame

namespace MazeGame

/-! ### Carve-step support lemmas -/

theorem inGrid_eq_dims (g g' : MazeGrid) (hw : g.width = g'.width)
    (hh : g.height = g'.height) (v : Vector2) :
    inGrid g v ↔ inGrid g' v := by
  unfold inGrid
  rw [hw, hh]

theorem solid_of_not_empty (g : MazeGrid) (v : Vector2)
    (hlen : g.cells.length = (g.width * g.height).toNat)
    (hv : inGrid g v) (hne : ¬ isEmptyCell g v) :
    getCellType g v.x v.z = some CellType.Solid := by
  obtain ⟨c, hc⟩ := getCellType_isSome g v hlen hv
  cases c
  · exact hc
  · exact absurd hc hne

theorem cross_inGrid_interior (g : MazeGrid) (v : Vector2)
    (hwodd : g.width % 2 = 1) (hhodd : g.height % 2 = 1)
    (hv : inGrid g v) (hc : IsCross v) :
    1 ≤ v.x ∧ v.x ≤ g.width - 2 ∧ 1 ≤ v.z ∧ v.z ≤ g.height - 2 := by
  obtain ⟨h1, h2, h3, h4⟩ := hv
  obtain ⟨c1, c2⟩ := hc
  omega

theorem even_even_not_empty (g : MazeGrid) (v : Vector2)
    (hvalid : ∀ u, inGrid g u → isEmptyCell g u →
      (1 ≤ u.x ∧ u.x ≤ g.width - 2 ∧ 1 ≤ u.z ∧ u.z ≤ g.height - 2) ∧
      (IsCross u ∨ IsLink u))
    (hv : inGrid g v) (hx : v.x % 2 = 0) (hz : v.z % 2 = 0) :
    ¬ isEmptyCell g v := by
  intro he
  rcases (hvalid v hv he).2 with ⟨c1, c2⟩ | (⟨c1, c2⟩ | ⟨c1, c2⟩) <;> omega

/-- A `Solid` on-grid intersection has no adjacent `Empty` cell, except
possibly the excepted link. -/
theorem solid_cross_neighbors (g : MazeGrid) (e : Option Vector2)
    (curr : Vector2)
    (hlink : LinkInvExcept g e)
    (hvalid : ∀ u, inGrid g u → isEmptyCell g u →
      (1 ≤ u.x ∧ u.x ≤ g.width - 2 ∧ 1 ≤ u.z ∧ u.z ≤ g.height - 2) ∧
      (IsCross u ∨ IsLink u))
    (hcc : IsCross curr)
    (hsolid : getCellType g curr.x curr.z = some CellType.Solid) :
    ∀ d, some (stepIn curr d 1) ≠ e →
      inGrid g (stepIn curr d 1) → ¬ isEmptyCell g (stepIn curr d 1) := by
  intro d hne hbg hbe
  have hlinkb : IsLink (stepIn curr d 1) := stepIn_link curr d hcc
  have := hlink (stepIn curr d 1) hbg hbe hlinkb hne (oppDir d)
    (by rw [stepIn_opp]; exact hcc)
  rw [stepIn_opp] at this
  unfold isEmptyCell at this
  rw [hsolid] at this
  exact absurd this (by simp)

/-- The perpendicular neighbours of a link next to an intersection have
both coordinates even. -/
theorem perp_even (curr : Vector2) (dir d' : Direction)
    (hcc : IsCross curr) (h1 : d' ≠ dir) (h2 : d' ≠ oppDir dir) :
    (stepIn (stepIn curr dir 1) d' 1).x % 2 = 0 ∧
      (stepIn (stepIn curr dir 1) d' 1).z % 2 = 0 := by
  obtain ⟨c1, c2⟩ := hcc
  cases dir <;> cases d' <;> simp [stepIn, oppDir] at * <;> omega

/-- Count contribution of one neighbour of a carved cell. -/
def nbrEmpty (g : MazeGrid) (c : Vector2) (d : Direction) : ℕ :=
  if inGrid g (stepIn c d 1) ∧ isEmptyCell g (stepIn c d 1) then 1 else 0

theorem nbrEmpty_one (g : MazeGrid) (c : Vector2) (d : Direction)
    (h1 : inGrid g (stepIn c d 1)) (h2 : isEmptyCell g (stepIn c d 1)) :
    nbrEmpty g c d = 1 := by
  unfold nbrEmpty
  rw [if_pos ⟨h1, h2⟩]

theorem nbrEmpty_zero (g : MazeGrid) (c : Vector2) (d : Direction)
    (h : inGrid g (stepIn c d 1) → ¬ isEmptyCell g (stepIn c d 1)) :
    nbrEmpty g c d = 0 := by
  unfold nbrEmpty
  rw [if_neg (fun hc => h hc.1 hc.2)]

/-- Carving a `Solid` on-grid cell: the connection count grows by the
number of `Empty` on-grid neighbours. -/
theorem carve_conn (g : MazeGrid) (c : Vector2)
    (hlen : g.cells.length = (g.width * g.height).toNat)
    (hc : inGrid g c)
    (hsolid : getCellType g c.x c.z = some CellType.Solid) :
    connectionCount (setCellType g c.x c.z CellType.Empty) =
      connectionCount g +
        (nbrEmpty g c Direction.Left + nbrEmpty g c Direction.Right +
          (nbrEmpty g c Direction.Up + nbrEmpty g c Direction.Down)) := by
  obtain ⟨hcx0, hcx1, hcz0, hcz1⟩ := hc
  have h := carve_counts g c hlen ⟨hcx0, hcx1, hcz0, hcz1⟩ hsolid
  unfold connectionCount
  rw [h.2.1, h.2.2.1]
  have hL : (if 0 ≤ c.x - 1 ∧ isEmptyCell g { x := c.x - 1, z := c.z }
      then 1 else 0) = nbrEmpty g c Direction.Left := by
    unfold nbrEmpty
    refine if_congr ?_ rfl rfl
    show (0 ≤ c.x - 1 ∧ isEmptyCell g { x := c.x - 1, z := c.z }) ↔
      (inGrid g { x := c.x - 1, z := c.z } ∧
        isEmptyCell g { x := c.x - 1, z := c.z })
    unfold inGrid
    simp only
    constructor
    · rintro ⟨a, b⟩
      exact ⟨⟨a, by omega, by omega, by omega⟩, b⟩
    · rintro ⟨⟨a, -, -, -⟩, b⟩
      exact ⟨a, b⟩
  have hR : (if c.x + 1 ≤ g.width - 1 ∧
      isEmptyCell g { x := c.x + 1, z := c.z } then 1 else 0) =
      nbrEmpty g c Direction.Right := by
    unfold nbrEmpty
    refine if_congr ?_ rfl rfl
    show (c.x + 1 ≤ g.width - 1 ∧ isEmptyCell g { x := c.x + 1, z := c.z }) ↔
      (inGrid g { x := c.x + 1, z := c.z } ∧
        isEmptyCell g { x := c.x + 1, z := c.z })
    unfold inGrid
    simp only
    constructor
    · rintro ⟨a, b⟩
      exact ⟨⟨by omega, a, by omega, by omega⟩, b⟩
    · rintro ⟨⟨-, a, -, -⟩, b⟩
      exact ⟨a, b⟩
  have hU : (if 0 ≤ c.z - 1 ∧ isEmptyCell g { x := c.x, z := c.z - 1 }
      then 1 else 0) = nbrEmpty g c Direction.Up := by
    unfold nbrEmpty
    refine if_congr ?_ rfl rfl
    show (0 ≤ c.z - 1 ∧ isEmptyCell g { x := c.x, z := c.z - 1 }) ↔
      (inGrid g { x := c.x, z := c.z - 1 } ∧
        isEmptyCell g { x := c.x, z := c.z - 1 })
    unfold inGrid
    simp only
    constructor
    · rintro ⟨a, b⟩
      exact ⟨⟨by omega, by omega, a, by omega⟩, b⟩
    · rintro ⟨⟨-, -, a, -⟩, b⟩
      exact ⟨a, b⟩
  have hD : (if c.z + 1 ≤ g.height - 1 ∧
      isEmptyCell g { x := c.x, z := c.z + 1 } then 1 else 0) =
      nbrEmpty g c Direction.Down := by
    unfold nbrEmpty
    refine if_congr ?_ rfl rfl
    show (c.z + 1 ≤ g.height - 1 ∧
        isEmptyCell g { x := c.x, z := c.z + 1 }) ↔
      (inGrid g { x := c.x, z := c.z + 1 } ∧
        isEmptyCell g { x := c.x, z := c.z + 1 })
    unfold inGrid
    simp only
    constructor
    · rintro ⟨a, b⟩
      exact ⟨⟨by omega, by omega, by omega, a⟩, b⟩
    · rintro ⟨⟨-, -, -, a⟩, b⟩
      exact ⟨a, b⟩
  rw [hL, hR, hU, hD]
  omega

end MazeGame

namespace MazeGame

theorem stepIn_dir_ne (v : Vector2) (d d' : Direction) (hne : d ≠ d') :
    stepIn v d 1 ≠ stepIn v d' 1 := by
  intro h
  have hx := congrArg Vector2.x h
  have hz := congrArg Vector2.z h
  cases d <;> cases d' <;> simp [stepIn] at hx hz hne <;> omega

theorem sum_nbr_one (f : Direction → ℕ) (d0 : Direction) (v0 : ℕ)
    (hval : f d0 = v0) (hothers : ∀ d', d' ≠ d0 → f d' = 0) :
    f Direction.Left + f Direction.Right +
      (f Direction.Up + f Direction.Down) = v0 := by
  cases d0
  · rw [hval, hothers Direction.Left (by decide),
      hothers Direction.Right (by decide), hothers Direction.Down (by decide)]
    omega
  · rw [hval, hothers Direction.Left (by decide),
      hothers Direction.Right (by decide), hothers Direction.Up (by decide)]
    omega
  · rw [hval, hothers Direction.Right (by decide),
      hothers Direction.Up (by decide), hothers Direction.Down (by decide)]
    omega
  · rw [hval, hothers Direction.Left (by decide),
      hothers Direction.Up (by decide), hothers Direction.Down (by decide)]
    omega

theorem sum_nbr_opp (f : Direction → ℕ) (d0 : Direction) (v0 v1 : ℕ)
    (hv0 : f d0 = v0) (hv1 : f (oppDir d0) = v1)
    (hothers : ∀ d', d' ≠ d0 → d' ≠ oppDir d0 → f d' = 0) :
    f Direction.Left + f Direction.Right +
      (f Direction.Up + f Direction.Down) = v0 + v1 := by
  cases d0 <;> simp only [oppDir] at hv1 hothers ⊢
  · rw [hv0, hv1, hothers Direction.Left (by decide) (by decide),
      hothers Direction.Right (by decide) (by decide)]
    omega
  · rw [hv0, hv1, hothers Direction.Left (by decide) (by decide),
      hothers Direction.Right (by decide) (by decide)]
    omega
  · rw [hv0, hv1, hothers Direction.Up (by decide) (by decide),
      hothers Direction.Down (by decide) (by decide)]
    omega
  · rw [hv0, hv1, hothers Direction.Up (by decide) (by decide),
      hothers Direction.Down (by decide) (by decide)]
    omega

/-- An intersection-neighbour of the link `stepIn p dd 1` is one of the
two intersections it connects. -/
theorem nbr_of_between (p : Vector2) (dd d' : Direction) (hp : IsCross p)
    (hcr : IsCross (stepIn (stepIn p dd 1) d' 1)) :
    stepIn (stepIn p dd 1) d' 1 = p ∨
      stepIn (stepIn p dd 1) d' 1 = stepIn p dd 2 := by
  by_cases h1 : d' = oppDir dd
  · left
    rw [h1, stepIn_opp]
  · by_cases h2 : d' = dd
    · right
      rw [h2, ← stepIn_two]
    · exfalso
      obtain ⟨he1, he2⟩ := perp_even p dd d' hp h2 h1
      obtain ⟨hc1, hc2⟩ := hcr
      omega

end MazeGame

namespace MazeGame

theorem interior_nbr_inGrid (g : MazeGrid) (v : Vector2) (d : Direction)
    (h : 1 ≤ v.x ∧ v.x ≤ g.width - 2 ∧ 1 ≤ v.z ∧ v.z ≤ g.height - 2) :
    inGrid g (stepIn v d 1) := by
  obtain ⟨h1, h2, h3, h4⟩ := h
  unfold inGrid
  cases d <;> simp [stepIn] <;> omega

/-- One iteration of the carve loop preserves the loop invariant and
carves exactly one `Solid` intersection. -/
theorem carve_step (g0 g : MazeGrid) (path : Path) (rank : Vector2 → ℕ)
    (curr : Vector2) (dir : Direction)
    (hg0len : g0.cells.length = (g0.width * g0.height).toNat)
    (hpath : PathOk g0 path rank)
    (hcs : CarveState g0 g path rank curr)
    (hsolid : getCellType g curr.x curr.z = some CellType.Solid)
    (hdir : mapGet path curr = some dir) :
    CarveState g0
      (setCellType (setCellType g curr.x curr.z CellType.Empty)
        (stepIn curr dir 1).x (stepIn curr dir 1).z CellType.Empty)
      path rank (stepIn curr dir 2) ∧
    solidCrossCount g =
      solidCrossCount
        (setCellType (setCellType g curr.x curr.z CellType.Empty)
          (stepIn curr dir 1).x (stepIn curr dir 1).z CellType.Empty) + 1 := by
  obtain ⟨hbasic, hwd, hhd, hcg, hcc, hmono, hD, hcr, hdisj⟩ := hcs
  set b := stepIn curr dir 1 with hbdef
  set far := stepIn curr dir 2 with hfardef
  set g1 := setCellType g curr.x curr.z CellType.Empty with hg1def
  set g2 := setCellType g1 b.x b.z CellType.Empty with hg2def
  obtain ⟨⟨hc0g, -, hf0g⟩, hrdec0⟩ := hpath curr dir hdir
  have hfarg : inGrid g far := (inGrid_eq_dims g g0 hwd hhd far).mpr hf0g
  have hfarc : IsCross far := stepIn_parity2 curr dir hcc
  have hbg : inGrid g b := inGrid_between g curr dir hcg hfarg
  have hbl : IsLink b := stepIn_link curr dir hcc
  have hcnb : curr ≠ b := cross_ne_link curr b hcc hbl
  have hfarnec : far ≠ curr := stepIn_ne2 curr dir
  have hfarnb : far ≠ b := cross_ne_link far b hfarc hbl
  have hg0solid : getCellType g0 curr.x curr.z = some CellType.Solid :=
    hmono.2 curr hc0g hsolid
  have hrdec : rank far < rank curr := hrdec0 hg0solid
  have hw1 : g1.width = g.width := setCellType_width g curr.x curr.z _
  have hh1 : g1.height = g.height := setCellType_height g curr.x curr.z _
  have hl1 : g1.cells.length = g.cells.length :=
    setCellType_length g curr.x curr.z _
  have hw2 : g2.width = g.width := by
    rw [hg2def, setCellType_width, hw1]
  have hh2 : g2.height = g.height := by
    rw [hg2def, setCellType_height, hh1]
  have hl2 : g2.cells.length = g.cells.length := by
    rw [hg2def, setCellType_length, hl1]
  have hlen1 : g1.cells.length = (g1.width * g1.height).toNat := by
    rw [hl1, hw1, hh1]; exact hbasic.len
  have hlen2 : g2.cells.length = (g2.width * g2.height).toNat := by
    rw [hl2, hw2, hh2]; exact hbasic.len
  have hinG1 : ∀ v, inGrid g1 v ↔ inGrid g v := inGrid_eq_dims g1 g hw1 hh1
  have hinG2 : ∀ v, inGrid g2 v ↔ inGrid g v := inGrid_eq_dims g2 g hw2 hh2
  have hpt1 : ∀ v, inGrid g v → getCellType g1 v.x v.z =
      if v = curr then some CellType.Empty else getCellType g v.x v.z :=
    fun v hv => getCellType_setCellType g CellType.Empty curr v hbasic.len
      hcg hv
  have hpt2 : ∀ v, inGrid g v → getCellType g2 v.x v.z =
      if v = b then some CellType.Empty else getCellType g1 v.x v.z :=
    fun v hv => getCellType_setCellType g1 CellType.Empty b v hlen1
      ((hinG1 b).mpr hbg) ((hinG1 v).mpr hv)
  have hpt12 : ∀ v, inGrid g v → getCellType g2 v.x v.z =
      if v = b then some CellType.Empty
      else if v = curr then some CellType.Empty
      else getCellType g v.x v.z := by
    intro v hv
    rw [hpt2 v hv]
    by_cases hvb : v = b
    · rw [if_pos hvb, if_pos hvb]
    · rw [if_neg hvb, if_neg hvb, hpt1 v hv]
  have hmono2 : ∀ v, inGrid g v → isEmptyCell g v → isEmptyCell g2 v := by
    intro v hv he
    unfold isEmptyCell
    rw [hpt12 v hv]
    by_cases h1 : v = b
    · rw [if_pos h1]
    · rw [if_neg h1]
      by_cases h2 : v = curr
      · rw [if_pos h2]
      · rw [if_neg h2]; exact he
  have hbemp2 : isEmptyCell g2 b := by
    unfold isEmptyCell
    rw [hpt12 b hbg, if_pos rfl]
  have hcemp2 : isEmptyCell g2 curr := by
    unfold isEmptyCell
    rw [hpt12 curr hcg, if_neg hcnb, if_pos rfl]
  have hcint := cross_inGrid_interior g curr hbasic.wodd hbasic.hodd hcg hcc
  have hfint := cross_inGrid_interior g far hbasic.wodd hbasic.hodd
    hfarg hfarc
  have hbint : 1 ≤ b.x ∧ b.x ≤ g.width - 2 ∧ 1 ≤ b.z ∧
      b.z ≤ g.height - 2 := by
    rw [hbdef]
    rw [hfardef] at hfint
    cases dir <;> simp [stepIn] at hfint hcint ⊢ <;> omega
  have hw3 := hbasic.w3
  have hh3 := hbasic.h3
  have hstartg : inGrid g { x := 1, z := 1 } :=
    ⟨show (0:Int) ≤ 1 by omega, show (1:Int) ≤ g.width - 1 by omega,
      show (0:Int) ≤ 1 by omega, show (1:Int) ≤ g.height - 1 by omega⟩
  have hvalid2 : ∀ v, inGrid g2 v → isEmptyCell g2 v →
      (1 ≤ v.x ∧ v.x ≤ g2.width - 2 ∧ 1 ≤ v.z ∧ v.z ≤ g2.height - 2) ∧
      (IsCross v ∨ IsLink v) := by
    intro v hv2 he2
    have hv : inGrid g v := (hinG2 v).mp hv2
    rw [hw2, hh2]
    unfold isEmptyCell at he2
    rw [hpt12 v hv] at he2
    by_cases h1 : v = b
    · subst h1; exact ⟨hbint, Or.inr hbl⟩
    · rw [if_neg h1] at he2
      by_cases h2 : v = curr
      · subst h2; exact ⟨hcint, Or.inl hcc⟩
      · rw [if_neg h2] at he2
        exact hbasic.emptyValid v hv he2
  have hbasic2 : BasicInv g2 :=
    { w3 := by rw [hw2]; exact hbasic.w3
      h3 := by rw [hh2]; exact hbasic.h3
      wodd := by rw [hw2]; exact hbasic.wodd
      hodd := by rw [hh2]; exact hbasic.hodd
      len := hlen2
      startEmpty := hmono2 _ hstartg hbasic.startEmpty
      emptyValid := hvalid2 }
  have hmono02 : CellsMono g0 g2 := by
    constructor
    · intro v hv0 he0
      exact hmono2 v ((inGrid_eq_dims g g0 hwd hhd v).mpr hv0)
        (hmono.1 v hv0 he0)
    · intro v hv0 hsol2
      have hv : inGrid g v := (inGrid_eq_dims g g0 hwd hhd v).mpr hv0
      rw [hpt12 v hv] at hsol2
      by_cases h1 : v = b
      · rw [if_pos h1] at hsol2
        exact absurd hsol2 (by simp)
      · rw [if_neg h1] at hsol2
        by_cases h2 : v = curr
        · rw [if_pos h2] at hsol2
          exact absurd hsol2 (by simp)
        · rw [if_neg h2] at hsol2
          exact hmono.2 v hv0 hsol2
  have hD2 : ∀ v, inGrid g0 v → isEmptyCell g0 v →
      reachesFrom g2 { x := 1, z := 1 } v := fun v hv0 he0 =>
    reaches_mono g g2 hw2 hh2 hmono2 _ _ (hD v hv0 he0)
  have hcr2 : CarvedRank g0 g2 rank far := by
    intro v hv2 hvc hve hg0s
    have hv : inGrid g v := (hinG2 v).mp hv2
    unfold isEmptyCell at hve
    rw [hpt12 v hv] at hve
    by_cases h1 : v = b
    · exfalso
      subst h1
      rcases hbl with ⟨a1, a2⟩ | ⟨a1, a2⟩ <;>
        (obtain ⟨b1, b2⟩ := hvc; omega)
    · rw [if_neg h1] at hve
      by_cases h2 : v = curr
      · subst h2; exact hrdec
      · rw [if_neg h2] at hve
        have := hcr v hv hvc hve hg0s
        omega
  have hsc1 : solidCrossCount g = solidCrossCount g1 + 1 :=
    (carve_counts g curr hbasic.len hcg hsolid).2.2.2.1 hcc
  have hbncross : ¬ IsCross b := by
    intro hc
    rcases hbl with ⟨a1, a2⟩ | ⟨a1, a2⟩ <;> (obtain ⟨b1, b2⟩ := hc; omega)
  have hec1 : emptyCount g1 = emptyCount g + 1 :=
    (carve_counts g curr hbasic.len hcg hsolid).1
  have hstep_cb : emptyStep g2 curr b :=
    ⟨(hinG2 curr).mpr hcg, (hinG2 b).mpr hbg, hcemp2, hbemp2, dir,
      hbdef.symm⟩
  have hwd2 : g2.width = g0.width := hw2.trans hwd
  have hhd2 : g2.height = g0.height := hh2.trans hhd
  have hb_opp : stepIn b (oppDir dir) 1 = curr := by
    rw [hbdef, stepIn_opp]
  have hb_dir : stepIn b dir 1 = far := by
    rw [hbdef, hfardef]
    exact (stepIn_two curr dir).symm
  have hcurrEmpty1 : isEmptyCell g1 curr := by
    unfold isEmptyCell
    rw [hpt1 curr hcg, if_pos rfl]
  rcases hdisj with ⟨hlink, hconn, hcount⟩ | hmid
  · -- the walk start was freshly selected: every neighbour of curr Solid
    have hnbrs : ∀ d', inGrid g (stepIn curr d' 1) →
        ¬ isEmptyCell g (stepIn curr d' 1) :=
      fun d' => solid_cross_neighbors g none curr hlink hbasic.emptyValid
        hcc hsolid d' (by simp)
    have hbne : ¬ isEmptyCell g b := hnbrs dir hbg
    have hbsolidg : getCellType g b.x b.z = some CellType.Solid :=
      solid_of_not_empty g b hbasic.len hbg hbne
    have hbsolid1 : getCellType g1 b.x b.z = some CellType.Solid := by
      rw [hpt1 b hbg, if_neg (fun h => hcnb h.symm)]
      exact hbsolidg
    have hsc2 : solidCrossCount g2 = solidCrossCount g1 :=
      (carve_counts g1 b hlen1 ((hinG1 b).mpr hbg) hbsolid1).2.2.2.2
        hbncross
    have hec2 : emptyCount g2 = emptyCount g1 + 1 :=
      (carve_counts g1 b hlen1 ((hinG1 b).mpr hbg) hbsolid1).1
    have hcc1 : connectionCount g1 = connectionCount g := by
      rw [carve_conn g curr hbasic.len hcg hsolid]
      have hz : ∀ d', nbrEmpty g curr d' = 0 := fun d' =>
        nbrEmpty_zero g curr d' (hnbrs d')
      simp only [hz]
      omega
    have hnbr_opp : nbrEmpty g1 b (oppDir dir) = 1 := by
      have h1 : inGrid g1 (stepIn b (oppDir dir) 1) := by
        rw [hb_opp]; exact (hinG1 curr).mpr hcg
      have h2 : isEmptyCell g1 (stepIn b (oppDir dir) 1) := by
        rw [hb_opp]; exact hcurrEmpty1
      exact nbrEmpty_one g1 b (oppDir dir) h1 h2
    have hperp : ∀ d', d' ≠ dir → d' ≠ oppDir dir →
        nbrEmpty g1 b d' = 0 := by
      intro d' h1 h2
      apply nbrEmpty_zero
      intro hin hemp
      have hper : (stepIn b d' 1).x % 2 = 0 ∧ (stepIn b d' 1).z % 2 = 0 :=
        perp_even curr dir d' hcc h1 h2
      unfold isEmptyCell at hemp
      rw [hpt1 _ ((hinG1 _).mp hin)] at hemp
      by_cases hc' : stepIn b d' 1 = curr
      · obtain ⟨c1, c2⟩ := hcc
        rw [hc'] at hper
        omega
      · rw [if_neg hc'] at hemp
        exact even_even_not_empty g _ hbasic.emptyValid
          ((hinG1 _).mp hin) hper.1 hper.2 hemp
    by_cases hfare : isEmptyCell g far
    · -- the far intersection is already carved: the path merges, Full
      have hfaremp1 : isEmptyCell g1 far := by
        unfold isEmptyCell
        rw [hpt1 far hfarg, if_neg hfarnec]
        exact hfare
      have hfaremp2 : isEmptyCell g2 far := hmono2 far hfarg hfare
      have hnbr_dir : nbrEmpty g1 b dir = 1 := by
        have h1 : inGrid g1 (stepIn b dir 1) := by
          rw [hb_dir]; exact (hinG1 far).mpr hfarg
        have h2 : isEmptyCell g1 (stepIn b dir 1) := by
          rw [hb_dir]; exact hfaremp1
        exact nbrEmpty_one g1 b dir h1 h2
      have hcc2 : connectionCount g2 = connectionCount g1 + 2 := by
        rw [carve_conn g1 b hlen1 ((hinG1 b).mpr hbg) hbsolid1,
          sum_nbr_opp (nbrEmpty g1 b) dir 1 1 hnbr_dir hnbr_opp hperp]
      have hfar_reach : reachesFrom g2 { x := 1, z := 1 } far :=
        reaches_mono g g2 hw2 hh2 hmono2 _ _ (hconn far hfarg hfare)
      have hstep_bfar : emptyStep g2 b far :=
        ⟨(hinG2 b).mpr hbg, (hinG2 far).mpr hfarg, hbemp2, hfaremp2,
          dir, hb_dir⟩
      have hreach_b : reachesFrom g2 { x := 1, z := 1 } b :=
        hfar_reach.trans (reaches_step g2 far b (emptyStep_symm g2 b far
          hstep_bfar))
      have hreach_c : reachesFrom g2 { x := 1, z := 1 } curr :=
        hreach_b.trans (reaches_step g2 b curr (emptyStep_symm g2 curr b
          hstep_cb))
      have hconn2 : ConnAll g2 := by
        intro v hv2 hve
        have hv : inGrid g v := (hinG2 v).mp hv2
        unfold isEmptyCell at hve
        rw [hpt12 v hv] at hve
        by_cases h1 : v = b
        · subst h1; exact hreach_b
        · rw [if_neg h1] at hve
          by_cases h2 : v = curr
          · subst h2; exact hreach_c
          · rw [if_neg h2] at hve
            exact reaches_mono g g2 hw2 hh2 hmono2 _ _ (hconn v hv hve)
      have hlink2 : LinkInvExcept g2 none := by
        intro v hv2 hve hvl hne d' hcrossn
        have hv : inGrid g v := (hinG2 v).mp hv2
        unfold isEmptyCell at hve
        rw [hpt12 v hv] at hve
        by_cases h1 : v = b
        · subst h1
          have htri : stepIn b d' 1 = curr ∨ stepIn b d' 1 = far :=
            nbr_of_between curr dir d' hcc hcrossn
          rcases htri with he | he
          · rw [he]; exact hcemp2
          · rw [he]; exact hfaremp2
        · rw [if_neg h1] at hve
          by_cases h2 : v = curr
          · exfalso
            subst h2
            rcases hvl with ⟨a1, a2⟩ | ⟨a1, a2⟩ <;>
              (obtain ⟨b1, b2⟩ := hcc; omega)
          · rw [if_neg h2] at hve
            have hvint := (hbasic.emptyValid v hv hve).1
            have hnin : inGrid g (stepIn v d' 1) :=
              interior_nbr_inGrid g v d' hvint
            exact hmono2 _ hnin
              (hlink v hv hve hvl (by simp) d' hcrossn)
      refine ⟨⟨hbasic2, hwd2, hhd2, (hinG2 far).mpr hfarg, hfarc, hmono02,
        hD2, hcr2, Or.inl ⟨hlink2, hconn2, ?_⟩⟩, by omega⟩
      unfold CountOk at hcount ⊢
      omega
    · -- the far intersection is still Solid: enter the Mid state at far
      have hfarsolid : getCellType g far.x far.z = some CellType.Solid :=
        solid_of_not_empty g far hbasic.len hfarg hfare
      have hfarsolid2 : getCellType g2 far.x far.z = some CellType.Solid := by
        rw [hpt12 far hfarg, if_neg hfarnb, if_neg hfarnec]
        exact hfarsolid
      have hnbr_dir : nbrEmpty g1 b dir = 0 := by
        apply nbrEmpty_zero
        intro hin hemp
        have hemp' : isEmptyCell g1 far := by rw [← hb_dir]; exact hemp
        unfold isEmptyCell at hemp'
        rw [hpt1 far hfarg, if_neg hfarnec] at hemp'
        exact hfare hemp'
      have hcc2 : connectionCount g2 = connectionCount g1 + 1 := by
        rw [carve_conn g1 b hlen1 ((hinG1 b).mpr hbg) hbsolid1,
          sum_nbr_opp (nbrEmpty g1 b) dir 0 1 hnbr_dir hnbr_opp hperp]
      have hlinkb2 : LinkInvExcept g2 (some b) := by
        intro v hv2 hve hvl hne d' hcrossn
        have hv : inGrid g v := (hinG2 v).mp hv2
        have hvnb : v ≠ b := fun hh => hne (by rw [hh])
        unfold isEmptyCell at hve
        rw [hpt12 v hv, if_neg hvnb] at hve
        by_cases h2 : v = curr
        · exfalso
          subst h2
          rcases hvl with ⟨a1, a2⟩ | ⟨a1, a2⟩ <;>
            (obtain ⟨b1, b2⟩ := hcc; omega)
        · rw [if_neg h2] at hve
          have hvint := (hbasic.emptyValid v hv hve).1
          have hnin : inGrid g (stepIn v d' 1) :=
            interior_nbr_inGrid g v d' hvint
          exact hmono2 _ hnin (hlink v hv hve hvl (by simp) d' hcrossn)
      have hconn2 : ∀ v, inGrid g2 v → isEmptyCell g2 v →
          reachesFrom g2 { x := 1, z := 1 } v ∨ reachesFrom g2 b v := by
        intro v hv2 hve
        have hv : inGrid g v := (hinG2 v).mp hv2
        unfold isEmptyCell at hve
        rw [hpt12 v hv] at hve
        by_cases h1 : v = b
        · subst h1
          exact Or.inr Relation.ReflTransGen.refl
        · rw [if_neg h1] at hve
          by_cases h2 : v = curr
          · rw [h2]
            exact Or.inr (reaches_step g2 b curr
              (emptyStep_symm g2 curr b hstep_cb))
          · rw [if_neg h2] at hve
            exact Or.inl (reaches_mono g g2 hw2 hh2 hmono2 _ _
              (hconn v hv hve))
      refine ⟨⟨hbasic2, hwd2, hhd2, (hinG2 far).mpr hfarg, hfarc, hmono02,
        hD2, hcr2, Or.inr ⟨hfarsolid2, curr, dir, hdir, hg0solid,
          hfardef.symm, (hinG2 curr).mpr hcg, hcc, hcemp2, hbemp2,
          hlinkb2, by unfold CountOk at hcount; omega, hconn2⟩⟩,
        by omega⟩
  · -- mid-replay: the carved prefix hangs off the pending link
    obtain ⟨hcsolid2, prev, dPrev, hprevget, hprevg0, hprevstep, hprevg,
      hprevc, hpreve, hbpeve, hlinke, hcountm, hconnm⟩ := hmid
    set bp := stepIn prev dPrev 1 with hbpdef
    have hcurrgrid' : inGrid g (stepIn prev dPrev 2) := by
      rw [hprevstep]; exact hcg
    have hbpg : inGrid g bp := inGrid_between g prev dPrev hprevg hcurrgrid'
    have hbpl : IsLink bp := stepIn_link prev dPrev hprevc
    have hbp_is_opp : stepIn curr (oppDir dPrev) 1 = bp := by
      rw [← hprevstep, hbpdef]
      exact stepIn_one_opp prev dPrev
    have hbnebp : b ≠ bp := by
      intro heq
      have hdir_eq : dir = oppDir dPrev := by
        by_contra hne
        exact stepIn_dir_ne curr dir (oppDir dPrev) hne
          (hbdef.symm.trans (heq.trans hbp_is_opp.symm))
      have hfar_prev : far = prev := by
        rw [hfardef, hdir_eq, ← hprevstep, stepIn_opp]
      have h1 : rank curr < rank prev := by
        have h := (hpath prev dPrev hprevget).2 hprevg0
        rw [hprevstep] at h
        exact h
      rw [hfar_prev] at hrdec
      omega
    have hbpnec : bp ≠ curr := (cross_ne_link curr bp hcc hbpl).symm
    have hbne : ¬ isEmptyCell g b :=
      solid_cross_neighbors g (some bp) curr hlinke hbasic.emptyValid hcc
        hsolid dir (fun hh => hbnebp (Option.some.inj hh)) hbg
    have hbsolidg : getCellType g b.x b.z = some CellType.Solid :=
      solid_of_not_empty g b hbasic.len hbg hbne
    have hbsolid1 : getCellType g1 b.x b.z = some CellType.Solid := by
      rw [hpt1 b hbg, if_neg (fun h => hcnb h.symm)]
      exact hbsolidg
    have hsc2 : solidCrossCount g2 = solidCrossCount g1 :=
      (carve_counts g1 b hlen1 ((hinG1 b).mpr hbg) hbsolid1).2.2.2.2
        hbncross
    have hec2 : emptyCount g2 = emptyCount g1 + 1 :=
      (carve_counts g1 b hlen1 ((hinG1 b).mpr hbg) hbsolid1).1
    have hnbr_bp : nbrEmpty g curr (oppDir dPrev) = 1 := by
      have h1 : inGrid g (stepIn curr (oppDir dPrev) 1) := by
        rw [hbp_is_opp]; exact hbpg
      have h2 : isEmptyCell g (stepIn curr (oppDir dPrev) 1) := by
        rw [hbp_is_opp]; exact hbpeve
      exact nbrEmpty_one g curr (oppDir dPrev) h1 h2
    have hothers : ∀ d', d' ≠ oppDir dPrev → nbrEmpty g curr d' = 0 := by
      intro d' hne
      apply nbrEmpty_zero
      intro hin
      apply solid_cross_neighbors g (some bp) curr hlinke hbasic.emptyValid
        hcc hsolid d' ?_ hin
      intro hh
      have heq := Option.some.inj hh
      exact stepIn_dir_ne curr d' (oppDir dPrev) hne
        (heq.trans hbp_is_opp.symm)
    have hcc1m : connectionCount g1 = connectionCount g + 1 := by
      rw [carve_conn g curr hbasic.len hcg hsolid,
        sum_nbr_one (nbrEmpty g curr) (oppDir dPrev) 1 hnbr_bp hothers]
    have hbpemp2 : isEmptyCell g2 bp := hmono2 bp hbpg hbpeve
    have hprevemp2 : isEmptyCell g2 prev := hmono2 prev hprevg hpreve
    have hnbr_opp : nbrEmpty g1 b (oppDir dir) = 1 := by
      have h1 : inGrid g1 (stepIn b (oppDir dir) 1) := by
        rw [hb_opp]; exact (hinG1 curr).mpr hcg
      have h2 : isEmptyCell g1 (stepIn b (oppDir dir) 1) := by
        rw [hb_opp]; exact hcurrEmpty1
      exact nbrEmpty_one g1 b (oppDir dir) h1 h2
    have hperp : ∀ d', d' ≠ dir → d' ≠ oppDir dir →
        nbrEmpty g1 b d' = 0 := by
      intro d' h1 h2
      apply nbrEmpty_zero
      intro hin hemp
      have hper : (stepIn b d' 1).x % 2 = 0 ∧ (stepIn b d' 1).z % 2 = 0 :=
        perp_even curr dir d' hcc h1 h2
      unfold isEmptyCell at hemp
      rw [hpt1 _ ((hinG1 _).mp hin)] at hemp
      by_cases hc' : stepIn b d' 1 = curr
      · obtain ⟨c1, c2⟩ := hcc
        rw [hc'] at hper
        omega
      · rw [if_neg hc'] at hemp
        exact even_even_not_empty g _ hbasic.emptyValid
          ((hinG1 _).mp hin) hper.1 hper.2 hemp
    have hstep_cbp : emptyStep g2 curr bp :=
      ⟨(hinG2 curr).mpr hcg, (hinG2 bp).mpr hbpg, hcemp2, hbpemp2,
        oppDir dPrev, hbp_is_opp⟩
    have hbp_nbrs2 : ∀ d', IsCross (stepIn bp d' 1) →
        isEmptyCell g2 (stepIn bp d' 1) := by
      intro d' hcrossn
      have htri : stepIn bp d' 1 = prev ∨
          stepIn bp d' 1 = stepIn prev dPrev 2 :=
        nbr_of_between prev dPrev d' hprevc hcrossn
      rcases htri with he | he
      · rw [he]; exact hprevemp2
      · rw [he, hprevstep]; exact hcemp2
    by_cases hfare : isEmptyCell g far
    · -- the far intersection is already carved: it is pre-replay, merge
      have hfarg0e : isEmptyCell g0 far := by
        by_cases hsf : isEmptyCell g0 far
        · exact hsf
        · exfalso
          have hfs0 : getCellType g0 far.x far.z = some CellType.Solid :=
            solid_of_not_empty g0 far hg0len hf0g hsf
          have := hcr far hfarg hfarc hfare hfs0
          omega
      have hfaremp1 : isEmptyCell g1 far := by
        unfold isEmptyCell
        rw [hpt1 far hfarg, if_neg hfarnec]
        exact hfare
      have hfaremp2 : isEmptyCell g2 far := hmono2 far hfarg hfare
      have hnbr_dir : nbrEmpty g1 b dir = 1 := by
        have h1 : inGrid g1 (stepIn b dir 1) := by
          rw [hb_dir]; exact (hinG1 far).mpr hfarg
        have h2 : isEmptyCell g1 (stepIn b dir 1) := by
          rw [hb_dir]; exact hfaremp1
        exact nbrEmpty_one g1 b dir h1 h2
      have hcc2 : connectionCount g2 = connectionCount g1 + 2 := by
        rw [carve_conn g1 b hlen1 ((hinG1 b).mpr hbg) hbsolid1,
          sum_nbr_opp (nbrEmpty g1 b) dir 1 1 hnbr_dir hnbr_opp hperp]
      have hfar_reach : reachesFrom g2 { x := 1, z := 1 } far :=
        reaches_mono g g2 hw2 hh2 hmono2 _ _ (hD far hf0g hfarg0e)
      have hstep_bfar : emptyStep g2 b far :=
        ⟨(hinG2 b).mpr hbg, (hinG2 far).mpr hfarg, hbemp2, hfaremp2,
          dir, hb_dir⟩
      have hreach_b : reachesFrom g2 { x := 1, z := 1 } b :=
        hfar_reach.trans (reaches_step g2 far b (emptyStep_symm g2 b far
          hstep_bfar))
      have hreach_c : reachesFrom g2 { x := 1, z := 1 } curr :=
        hreach_b.trans (reaches_step g2 b curr (emptyStep_symm g2 curr b
          hstep_cb))
      have hreach_bp : reachesFrom g2 { x := 1, z := 1 } bp :=
        hreach_c.trans (reaches_step g2 curr bp hstep_cbp)
      have hconn2 : ConnAll g2 := by
        intro v hv2 hve
        have hv : inGrid g v := (hinG2 v).mp hv2
        unfold isEmptyCell at hve
        rw [hpt12 v hv] at hve
        by_cases h1 : v = b
        · rw [h1]; exact hreach_b
        · rw [if_neg h1] at hve
          by_cases h2 : v = curr
          · rw [h2]; exact hreach_c
          · rw [if_neg h2] at hve
            rcases hconnm v hv hve with hr | hr
            · exact reaches_mono g g2 hw2 hh2 hmono2 _ _ hr
            · exact hreach_bp.trans
                (reaches_mono g g2 hw2 hh2 hmono2 _ _ hr)
      have hlink2 : LinkInvExcept g2 none := by
        intro v hv2 hve hvl hne d' hcrossn
        have hv : inGrid g v := (hinG2 v).mp hv2
        unfold isEmptyCell at hve
        rw [hpt12 v hv] at hve
        by_cases h1 : v = b
        · subst h1
          have htri : stepIn b d' 1 = curr ∨ stepIn b d' 1 = far :=
            nbr_of_between curr dir d' hcc hcrossn
          rcases htri with he | he
          · rw [he]; exact hcemp2
          · rw [he]; exact hfaremp2
        · rw [if_neg h1] at hve
          by_cases h2 : v = curr
          · exfalso
            subst h2
            rcases hvl with ⟨a1, a2⟩ | ⟨a1, a2⟩ <;>
              (obtain ⟨b1, b2⟩ := hcc; omega)
          · rw [if_neg h2] at hve
            by_cases h3 : v = bp
            · rw [h3]
              exact hbp_nbrs2 d' (h3 ▸ hcrossn)
            · have hvint := (hbasic.emptyValid v hv hve).1
              have hnin : inGrid g (stepIn v d' 1) :=
                interior_nbr_inGrid g v d' hvint
              exact hmono2 _ hnin (hlinke v hv hve hvl
                (fun hh => h3 (Option.some.inj hh)) d' hcrossn)
      refine ⟨⟨hbasic2, hwd2, hhd2, (hinG2 far).mpr hfarg, hfarc, hmono02,
        hD2, hcr2, Or.inl ⟨hlink2, hconn2, ?_⟩⟩, by omega⟩
      unfold CountOk
      omega
    · -- far still Solid: remain in the Mid state, now pending at b
      have hfarsolid : getCellType g far.x far.z = some CellType.Solid :=
        solid_of_not_empty g far hbasic.len hfarg hfare
      have hfarsolid2 : getCellType g2 far.x far.z = some CellType.Solid := by
        rw [hpt12 far hfarg, if_neg hfarnb, if_neg hfarnec]
        exact hfarsolid
      have hnbr_dir : nbrEmpty g1 b dir = 0 := by
        apply nbrEmpty_zero
        intro hin hemp
        have hemp' : isEmptyCell g1 far := by rw [← hb_dir]; exact hemp
        unfold isEmptyCell at hemp'
        rw [hpt1 far hfarg, if_neg hfarnec] at hemp'
        exact hfare hemp'
      have hcc2 : connectionCount g2 = connectionCount g1 + 1 := by
        rw [carve_conn g1 b hlen1 ((hinG1 b).mpr hbg) hbsolid1,
          sum_nbr_opp (nbrEmpty g1 b) dir 0 1 hnbr_dir hnbr_opp hperp]
      have hreach_bc : reachesFrom g2 b curr :=
        reaches_step g2 b curr (emptyStep_symm g2 curr b hstep_cb)
      have hreach_bbp : reachesFrom g2 b bp :=
        hreach_bc.trans (reaches_step g2 curr bp hstep_cbp)
      have hlinkb2 : LinkInvExcept g2 (some b) := by
        intro v hv2 hve hvl hne d' hcrossn
        have hv : inGrid g v := (hinG2 v).mp hv2
        have hvnb : v ≠ b := fun hh => hne (by rw [hh])
        unfold isEmptyCell at hve
        rw [hpt12 v hv, if_neg hvnb] at hve
        by_cases h2 : v = curr
        · exfalso
          subst h2
          rcases hvl with ⟨a1, a2⟩ | ⟨a1, a2⟩ <;>
            (obtain ⟨b1, b2⟩ := hcc; omega)
        · rw [if_neg h2] at hve
          by_cases h3 : v = bp
          · rw [h3]
            exact hbp_nbrs2 d' (h3 ▸ hcrossn)
          · have hvint := (hbasic.emptyValid v hv hve).1
            have hnin : inGrid g (stepIn v d' 1) :=
              interior_nbr_inGrid g v d' hvint
            exact hmono2 _ hnin (hlinke v hv hve hvl
              (fun hh => h3 (Option.some.inj hh)) d' hcrossn)
      have hconn2 : ∀ v, inGrid g2 v → isEmptyCell g2 v →
          reachesFrom g2 { x := 1, z := 1 } v ∨ reachesFrom g2 b v := by
        intro v hv2 hve
        have hv : inGrid g v := (hinG2 v).mp hv2
        unfold isEmptyCell at hve
        rw [hpt12 v hv] at hve
        by_cases h1 : v = b
        · rw [h1]
          exact Or.inr Relation.ReflTransGen.refl
        · rw [if_neg h1] at hve
          by_cases h2 : v = curr
          · rw [h2]
            exact Or.inr hreach_bc
          · rw [if_neg h2] at hve
            rcases hconnm v hv hve with hr | hr
            · exact Or.inl (reaches_mono g g2 hw2 hh2 hmono2 _ _ hr)
            · exact Or.inr (hreach_bbp.trans
                (reaches_mono g g2 hw2 hh2 hmono2 _ _ hr))
      refine ⟨⟨hbasic2, hwd2, hhd2, (hinG2 far).mpr hfarg, hfarc, hmono02,
        hD2, hcr2, Or.inr ⟨hfarsolid2, curr, dir, hdir, hg0solid,
          hfardef.symm, (hinG2 curr).mpr hcg, hcc, hcemp2, hbemp2,
          hlinkb2, by omega, hconn2⟩⟩,
        by omega⟩


/-- Running the carve loop from a valid `CarveState` preserves the
invariant: if the replay terminates, the resulting grid satisfies the
full invariant, keeps the dimensions, and the drop in the
unvisited-intersection counter `n` equals the drop in the number of
`Solid` intersections. -/
theorem carvePath_inv (g0 : MazeGrid) (path : Path) (rank : Vector2 → ℕ)
    (hg0len : g0.cells.length = (g0.width * g0.height).toNat)
    (hpath : PathOk g0 path rank) :
    ∀ (fuel : ℕ) (g : MazeGrid) (curr : Vector2) (n : Int),
      CarveState g0 g path rank curr →
      ∀ g' n', carvePath g path fuel curr n = some (g', n') →
      FullInv g' ∧ g'.width = g0.width ∧ g'.height = g0.height ∧
      (solidCrossCount g' : Int) - n' = (solidCrossCount g : Int) - n := by
  intro fuel
  induction fuel with
  | zero =>
    intro g curr n hcs g' n' h
    exact absurd h (by simp [carvePath])
  | succ fuel ih =>
    intro g curr n hcs g' n' h
    simp only [carvePath] at h
    split at h
    · -- curr is Solid: carve one step and recurse
      next hsolid =>
      split at h
      · exact absurd h (by simp)
      · next dir hget =>
        obtain ⟨hcs2, hsc⟩ :=
          carve_step g0 g path rank curr dir hg0len hpath hcs hsolid hget
        obtain ⟨hfull, hwd, hhd, hcount⟩ := ih _ _ _ hcs2 g' n' h
        exact ⟨hfull, hwd, hhd, by omega⟩
    · -- exit: curr is no longer Solid, the state must be in full shape
      next hsolid =>
      rw [Option.some.injEq, Prod.mk.injEq] at h
      obtain ⟨rfl, rfl⟩ := h
      obtain ⟨hbasic, hwd, hhd, hcg, hcc, hmono, hD, hcr, hdisj⟩ := hcs
      rcases hdisj with ⟨hlink, hconn, hcount⟩ | hmid
      · exact ⟨⟨hbasic, hlink, hconn, hcount⟩, hwd, hhd, rfl⟩
      · exact absurd hmid.1 hsolid


/-- Each iteration of the generation loop preserves the full invariant
and keeps `n` synchronized with the number of `Solid` intersections; on
(fuel-observed) termination all intersections are carved. -/
theorem generateLoop_inv (rng : ℕ → ℕ) (wfuel : ℕ) :
    ∀ (fuel k : ℕ) (g : MazeGrid) (n : Int),
      FullInv g → (solidCrossCount g : Int) = n →
      ∀ g', generateLoop rng wfuel fuel k g n = some g' →
      FullInv g' ∧ solidCrossCount g' = 0 ∧
      g'.width = g.width ∧ g'.height = g.height := by
  intro fuel
  induction fuel with
  | zero =>
    intro k g n hfull hcount g' h
    simp only [generateLoop] at h
    split at h
    · exact absurd h (by simp)
    · rw [Option.some.injEq] at h
      subst h
      exact ⟨hfull, by omega, rfl, rfl⟩
  | succ fuel ih =>
    intro k g n hfull hcount g' h
    simp only [generateLoop] at h
    split at h
    · split at h
      · exact absurd h (by simp)
      · next path k' hwalk =>
        split at h
        · exact absurd h (by simp)
        · next g2 n2 hcarve =>
          obtain ⟨hbasic, hlink, hconn, hcnt⟩ := hfull
          obtain ⟨hsg, hscross⟩ := randomOddCell_spec g rng k hbasic.w3
            hbasic.wodd hbasic.h3 hbasic.hodd
          obtain ⟨rank, hpath⟩ := randomWalk_pathOk g rng wfuel (k + 2)
            (randomOddCell g rng k) [] (fun _ => 0) hsg hscross
            (by intro v d hv; simp [mapGet] at hv) path k' hwalk
          have hcs : CarveState g g path rank (randomOddCell g rng k) := by
            refine ⟨hbasic, rfl, rfl, hsg, hscross, ⟨fun v _ hv => hv,
              fun v _ hv => hv⟩, fun v hv hve => hconn v hv hve, ?_,
              Or.inl ⟨hlink, hconn, hcnt⟩⟩
            intro v _ _ hve hvs
            unfold isEmptyCell at hve
            rw [hvs] at hve
            exact absurd (Option.some.inj hve) (by simp)
          obtain ⟨hfull2, hwd, hhd, hcnt2⟩ := carvePath_inv g path rank
            hbasic.len hpath wfuel g (randomOddCell g rng k) n hcs g2 n2
            hcarve
          obtain ⟨hf3, hsc3, hw3, hh3⟩ := ih k' g2 n2 hfull2 (by omega) g' h
          exact ⟨hf3, hsc3, by rw [hw3, hwd], by rw [hh3, hhd]⟩
    · rw [Option.some.injEq] at h
      subst h
      exact ⟨hfull, by omega, rfl, rfl⟩


/-! ### Initial-state lemmas -/

/-- The all-`Solid` grid the constructor allocates before carving. -/
def baseGrid (w h : Int) : MazeGrid :=
  { width := w, height := h,
    cells := List.replicate (w * h).toNat CellType.Solid }

theorem initState_eq (w h : Int) (s : Vector2) :
    initState w h s = setCellType (baseGrid w h) s.x s.z CellType.Empty :=
  rfl

theorem initState_width (w h : Int) (s : Vector2) :
    (initState w h s).width = w := by
  rw [initState_eq, setCellType_width]
  rfl

theorem initState_height (w h : Int) (s : Vector2) :
    (initState w h s).height = h := by
  rw [initState_eq, setCellType_height]
  rfl

theorem baseGrid_solid (w h x z : Int)
    (hv1 : 0 ≤ x) (hv2 : x ≤ w - 1) (hv3 : 0 ≤ z) (hv4 : z ≤ h - 1) :
    getCellType (baseGrid w h) x z = some CellType.Solid := by
  obtain ⟨hi1, hi2⟩ := lin_bounds w h x z hv1 hv2 hv3 hv4
  simp only [getCellType, linearize, baseGrid]
  rw [if_pos (show (0:Int) ≤ z * w + x from hi1),
    List.get?_eq_getElem?, List.getElem?_replicate, if_pos (by omega)]

theorem emptyCount_base (w h : Int) (hw : 1 ≤ w) (hh : 1 ≤ h) :
    emptyCount (baseGrid w h) = 0 := by
  unfold emptyCount
  rw [Finset.card_eq_zero, Finset.eq_empty_iff_forall_not_mem]
  intro p hp
  simp only [Finset.mem_filter, mem_gridCoords'] at hp
  obtain ⟨⟨h1, h2, h3, h4⟩, hpe⟩ := hp
  rw [baseGrid_solid w h p.1 p.2 h1 h2 h3 h4] at hpe
  exact absurd (Option.some.inj hpe) (by simp)

theorem connH_base (w h : Int) (hw : 1 ≤ w) (hh : 1 ≤ h) :
    connH (baseGrid w h) = 0 := by
  unfold connH
  rw [Finset.card_eq_zero, Finset.eq_empty_iff_forall_not_mem]
  intro p hp
  simp only [Finset.mem_filter, mem_gridCoords'] at hp
  obtain ⟨⟨h1, h2, h3, h4⟩, _, hpe, _⟩ := hp
  rw [baseGrid_solid w h p.1 p.2 h1 h2 h3 h4] at hpe
  exact absurd (Option.some.inj hpe) (by simp)

theorem connV_base (w h : Int) (hw : 1 ≤ w) (hh : 1 ≤ h) :
    connV (baseGrid w h) = 0 := by
  unfold connV
  rw [Finset.card_eq_zero, Finset.eq_empty_iff_forall_not_mem]
  intro p hp
  simp only [Finset.mem_filter, mem_gridCoords'] at hp
  obtain ⟨⟨h1, h2, h3, h4⟩, _, hpe, _⟩ := hp
  rw [baseGrid_solid w h p.1 p.2 h1 h2 h3 h4] at hpe
  exact absurd (Option.some.inj hpe) (by simp)

/-- Odd values in `[0, n-1]` number `floor(n/2)` when `n` is odd. -/
theorem odd_filter_card (n : Int) (h1 : 1 ≤ n) (h2 : n % 2 = 1) :
    ((Finset.Icc (0:Int) (n - 1)).filter (fun x => x % 2 = 1)).card =
      (n.fdiv 2).toNat := by
  have hfd : n.fdiv 2 = n / 2 := Int.fdiv_eq_ediv _ (by omega)
  have hinj : Function.Injective (fun i : ℕ => 2 * (i : Int) + 1) := by
    intro a b hab
    simp only at hab
    omega
  have himg : (Finset.Icc (0:Int) (n - 1)).filter (fun x => x % 2 = 1) =
      (Finset.range (n / 2).toNat).image (fun i : ℕ => 2 * (i : Int) + 1) := by
    ext x
    simp only [Finset.mem_filter, Finset.mem_Icc, Finset.mem_image,
      Finset.mem_range]
    constructor
    · rintro ⟨⟨hx1, hx2⟩, hx3⟩
      exact ⟨((x - 1) / 2).toNat, by omega, by omega⟩
    · rintro ⟨i, hi, rfl⟩
      omega
  rw [himg, Finset.card_image_of_injective _ hinj, Finset.card_range, hfd]

theorem solidCrossCount_base (w h : Int) (hw : 1 ≤ w) (hwo : w % 2 = 1)
    (hh : 1 ≤ h) (hho : h % 2 = 1) :
    solidCrossCount (baseGrid w h) =
      (w.fdiv 2).toNat * (h.fdiv 2).toNat := by
  unfold solidCrossCount
  have hcong : (gridCoords (baseGrid w h)).filter
      (fun p => p.1 % 2 = 1 ∧ p.2 % 2 = 1 ∧
        getCellType (baseGrid w h) p.1 p.2 = some CellType.Solid) =
      (gridCoords (baseGrid w h)).filter
        (fun p => p.1 % 2 = 1 ∧ p.2 % 2 = 1) := by
    apply Finset.filter_congr
    intro p hp
    rw [mem_gridCoords'] at hp
    constructor
    · rintro ⟨a, b, -⟩
      exact ⟨a, b⟩
    · rintro ⟨a, b⟩
      exact ⟨a, b, baseGrid_solid w h p.1 p.2 hp.1 hp.2.1 hp.2.2.1 hp.2.2.2⟩
  rw [hcong,
    show gridCoords (baseGrid w h) =
      Finset.Icc (0:Int) (w - 1) ×ˢ Finset.Icc (0:Int) (h - 1) from rfl,
    Finset.filter_product (fun x : Int => x % 2 = 1)
      (fun x : Int => x % 2 = 1),
    Finset.card_product, odd_filter_card w hw hwo,
    odd_filter_card h hh hho]


/-- Pointwise contents of the initial state: the start cell is `Empty`,
everything else `Solid`. -/
theorem initState_pt (w h : Int) (hw : 3 ≤ w) (hh : 3 ≤ h) (v : Vector2)
    (hv : inGrid (initState w h { x := 1, z := 1 }) v) :
    getCellType (initState w h { x := 1, z := 1 }) v.x v.z =
      if v = { x := 1, z := 1 } then some CellType.Empty
      else some CellType.Solid := by
  obtain ⟨h1, h2, h3, h4⟩ := hv
  rw [initState_width] at h2
  rw [initState_height] at h4
  exact getCellType_initState_pointwise w h { x := 1, z := 1 } v
    (show (0:Int) ≤ 1 by norm_num) (show (1:Int) ≤ w - 1 by omega)
    (show (0:Int) ≤ 1 by norm_num) (show (1:Int) ≤ h - 1 by omega)
    h1 h2 h3 h4

/-- The grid at entry of `generateMaze` satisfies the full invariant, and
its `Solid`-intersection count matches `unvisitedIntersections`. -/
theorem initState_inv (w h : Int) (hw : 3 ≤ w) (hwo : w % 2 = 1)
    (hh : 3 ≤ h) (hho : h % 2 = 1) :
    FullInv (initState w h { x := 1, z := 1 }) ∧
    (solidCrossCount (initState w h { x := 1, z := 1 }) : Int) =
      initUnvisited w h := by
  have hW : (initState w h { x := 1, z := 1 }).width = w :=
    initState_width w h _
  have hH : (initState w h { x := 1, z := 1 }).height = h :=
    initState_height w h _
  have hsg : inGrid (initState w h { x := 1, z := 1 }) { x := 1, z := 1 } := by
    refine ⟨?_, ?_, ?_, ?_⟩
    · show (0:Int) ≤ 1
      norm_num
    · rw [hW]
      show (1:Int) ≤ w - 1
      omega
    · show (0:Int) ≤ 1
      norm_num
    · rw [hH]
      show (1:Int) ≤ h - 1
      omega
  have hEmptyIff : ∀ v, inGrid (initState w h { x := 1, z := 1 }) v →
      (isEmptyCell (initState w h { x := 1, z := 1 }) v ↔
        v = { x := 1, z := 1 }) := by
    intro v hv
    unfold isEmptyCell
    rw [initState_pt w h hw hh v hv]
    by_cases he : v = { x := 1, z := 1 }
    · simp [he]
    · simp [he]
  have hstart : isEmptyCell (initState w h { x := 1, z := 1 })
      { x := 1, z := 1 } := (hEmptyIff _ hsg).mpr rfl
  have hbasic : BasicInv (initState w h { x := 1, z := 1 }) := by
    refine ⟨by omega, by omega, by omega, by omega, ?_, hstart, ?_⟩
    · rw [initState_eq, setCellType_length, setCellType_width,
        setCellType_height]
      simp [baseGrid]
    · intro v hv hve
      have hv1 : v = { x := 1, z := 1 } := (hEmptyIff v hv).mp hve
      subst hv1
      refine ⟨⟨?_, ?_, ?_, ?_⟩, Or.inl ⟨?_, ?_⟩⟩
      · show (1:Int) ≤ 1
        norm_num
      · rw [hW]
        show (1:Int) ≤ w - 2
        omega
      · show (1:Int) ≤ 1
        norm_num
      · rw [hH]
        show (1:Int) ≤ h - 2
        omega
      · show (1:Int) % 2 = 1
        decide
      · show (1:Int) % 2 = 1
        decide
  have hlink : LinkInvExcept (initState w h { x := 1, z := 1 }) none := by
    intro v hv hve hvl _ d _
    exfalso
    have hv1 : v = { x := 1, z := 1 } := (hEmptyIff v hv).mp hve
    subst hv1
    rcases hvl with ⟨a, b⟩ | ⟨a, b⟩
    · exact absurd b (by decide)
    · exact absurd a (by decide)
  have hconn : ConnAll (initState w h { x := 1, z := 1 }) := by
    intro v hv hve
    have hv1 : v = { x := 1, z := 1 } := (hEmptyIff v hv).mp hve
    subst hv1
    exact Relation.ReflTransGen.refl
  have hlenB : (baseGrid w h).cells.length =
      ((baseGrid w h).width * (baseGrid w h).height).toNat := by
    simp [baseGrid]
  have hinB : inGrid (baseGrid w h) { x := 1, z := 1 } := by
    refine ⟨?_, ?_, ?_, ?_⟩
    · show (0:Int) ≤ 1
      norm_num
    · show (1:Int) ≤ w - 1
      omega
    · show (0:Int) ≤ 1
      norm_num
    · show (1:Int) ≤ h - 1
      omega
  have hsolidB : getCellType (baseGrid w h)
      ({ x := 1, z := 1 } : Vector2).x ({ x := 1, z := 1 } : Vector2).z =
      some CellType.Solid :=
    baseGrid_solid w h 1 1 (by norm_num) (by omega) (by norm_num) (by omega)
  obtain ⟨heC, -, -, hcrossC, -⟩ := carve_counts (baseGrid w h)
    { x := 1, z := 1 } hlenB hinB hsolidB
  rw [← initState_eq] at heC hcrossC
  have hcross' := hcrossC ⟨show (1:Int) % 2 = 1 by decide,
    show (1:Int) % 2 = 1 by decide⟩
  have hch0 : connH (initState w h { x := 1, z := 1 }) = 0 := by
    unfold connH
    rw [Finset.card_eq_zero, Finset.eq_empty_iff_forall_not_mem]
    intro p hp
    simp only [Finset.mem_filter, mem_gridCoords'] at hp
    obtain ⟨⟨h1, h2, h3, h4⟩, hb, he1, he2⟩ := hp
    have e1 := (hEmptyIff { x := p.1, z := p.2 } ⟨h1, h2, h3, h4⟩).mp he1
    have e2 := (hEmptyIff { x := p.1 + 1, z := p.2 }
      ⟨show (0:Int) ≤ p.1 + 1 by omega, hb, h3, h4⟩).mp he2
    rw [Vector2.mk.injEq] at e1 e2
    omega
  have hcv0 : connV (initState w h { x := 1, z := 1 }) = 0 := by
    unfold connV
    rw [Finset.card_eq_zero, Finset.eq_empty_iff_forall_not_mem]
    intro p hp
    simp only [Finset.mem_filter, mem_gridCoords'] at hp
    obtain ⟨⟨h1, h2, h3, h4⟩, hb, he1, he2⟩ := hp
    have e1 := (hEmptyIff { x := p.1, z := p.2 } ⟨h1, h2, h3, h4⟩).mp he1
    have e2 := (hEmptyIff { x := p.1, z := p.2 + 1 }
      ⟨h1, h2, show (0:Int) ≤ p.2 + 1 by omega, hb⟩).mp he2
    rw [Vector2.mk.injEq] at e1 e2
    omega
  have heB : emptyCount (baseGrid w h) = 0 :=
    emptyCount_base w h (by omega) (by omega)
  have hscB := solidCrossCount_base w h (by omega) hwo (by omega) hho
  have hcount : CountOk (initState w h { x := 1, z := 1 }) := by
    unfold CountOk connectionCount
    omega
  refine ⟨⟨hbasic, hlink, hconn, hcount⟩, ?_⟩
  have hfw : w.fdiv 2 = w / 2 := Int.fdiv_eq_ediv _ (by omega)
  have hfh : h.fdiv 2 = h / 2 := Int.fdiv_eq_ediv _ (by omega)
  have h2 : ((w.fdiv 2).toNat : Int) = w / 2 := by
    rw [hfw]; omega
  have h3 : ((h.fdiv 2).toNat : Int) = h / 2 := by
    rw [hfh]; omega
  have h4 : (solidCrossCount (baseGrid w h) : Int) = w / 2 * (h / 2) := by
    rw [hscB, Nat.cast_mul, h2, h3]
  unfold initUnvisited
  rw [hfw, hfh]
  omega


theorem normalizeDim_ge3 (d : Int) (hd : 2 ≤ d) : 3 ≤ normalizeDim d := by
  unfold normalizeDim
  split <;> omega

theorem normalizeDim_odd (d : Int) : normalizeDim d % 2 = 1 := by
  unfold normalizeDim
  split <;> omega

/-- Master invariant of a completed generation with default start and
goal: the final grid satisfies the full invariant, every intersection is
carved, and dimensions and indices are as the constructor computes. -/
theorem generate_inv (width height : Int) (rng : ℕ → ℕ) (fuel : ℕ)
    (hw : 2 ≤ width) (hh : 2 ≤ height) :
    ∀ m, generate width height none none rng fuel = some m →
      FullInv m.grid ∧ solidCrossCount m.grid = 0 ∧
      m.grid.width = normalizeDim width ∧
      m.grid.height = normalizeDim height ∧
      m.startIndex = normalizeDim width + 1 ∧
      m.goalIndex = (normalizeDim height - 2) * normalizeDim width +
        (normalizeDim width - 2) := by
  intro m h
  simp only [generate, Option.getD_none] at h
  split at h
  · exact absurd h (by simp)
  · next g hloop =>
    rw [Option.some.injEq] at h
    subst h
    obtain ⟨hfullI, hscI⟩ := initState_inv (normalizeDim width)
      (normalizeDim height) (normalizeDim_ge3 width hw)
      (normalizeDim_odd width) (normalizeDim_ge3 height hh)
      (normalizeDim_odd height)
    obtain ⟨hf, hsc, hwd, hhd⟩ := generateLoop_inv rng fuel fuel 0 _ _
      hfullI hscI g hloop
    refine ⟨hf, hsc, ?_, ?_, ?_, ?_⟩
    · show g.width = normalizeDim width
      rw [hwd, initState_width]
    · show g.height = normalizeDim height
      rw [hhd, initState_height]
    · show (1:Int) * normalizeDim width + 1 = normalizeDim width + 1
      ring
    · show (normalizeDim height - 2) * normalizeDim width +
        (normalizeDim width - 2) =
        (normalizeDim height - 2) * normalizeDim width +
          (normalizeDim width - 2)
      rfl


/-! ### Helpers for the generate-level claims -/

theorem generate_startPos (width height : Int) (rng : ℕ → ℕ) (fuel : ℕ)
    (hw : 2 ≤ width) (hh : 2 ≤ height) (m : WilsonMaze)
    (hgen : generate width height none none rng fuel = some m) :
    m.startPos = { x := 1, z := 1 } ∧
    m.goalPos = { x := normalizeDim width - 2,
                  z := normalizeDim height - 2 } := by
  obtain ⟨-, -, hwd, hhd, hsi, hgi⟩ :=
    generate_inv width height rng fuel hw hh m hgen
  have hW3 := normalizeDim_ge3 width hw
  have hH3 := normalizeDim_ge3 height hh
  constructor
  · unfold WilsonMaze.startPos
    have h1 : m.startIndex = linearize m.grid 1 1 := by
      unfold linearize
      rw [hwd, hsi]
      ring
    rw [h1]
    exact delinearize_linearize m.grid 1 1 (by norm_num) (by omega)
      (by norm_num)
  · unfold WilsonMaze.goalPos
    have h1 : m.goalIndex = linearize m.grid (normalizeDim width - 2)
        (normalizeDim height - 2) := by
      unfold linearize
      rw [hwd, hgi]
    rw [h1]
    exact delinearize_linearize m.grid _ _ (by omega) (by omega) (by omega)

theorem solidCross_zero_empty (g : MazeGrid)
    (hlen : g.cells.length = (g.width * g.height).toNat)
    (hsc : solidCrossCount g = 0) (v : Vector2) (hv : inGrid g v)
    (hcross : IsCross v) : isEmptyCell g v := by
  by_cases he : isEmptyCell g v
  · exact he
  · exfalso
    have hsolid : getCellType g v.x v.z = some CellType.Solid :=
      solid_of_not_empty g v hlen hv he
    obtain ⟨h1, h2, h3, h4⟩ := hv
    have hmem : (v.x, v.z) ∈ (gridCoords g).filter
        (fun p => p.1 % 2 = 1 ∧ p.2 % 2 = 1 ∧
          getCellType g p.1 p.2 = some CellType.Solid) := by
      rw [Finset.mem_filter, mem_gridCoords']
      exact ⟨⟨h1, h2, h3, h4⟩, hcross.1, hcross.2, hsolid⟩
    have hpos := Finset.card_pos.mpr ⟨_, hmem⟩
    unfold solidCrossCount at hsc
    omega

/-! ### Claims C1, C2, C4, C10 -/

/-- C1: for every terminating run of `WilsonMaze` generation with
requested width and height at least 3 (default start and goal), the
`Empty`-cell subgraph is connected: every `Empty` cell of the final grid
is reachable from the start cell through grid-adjacent `Empty` cells. -/
theorem c1_connected (width height : Int) (rng : ℕ → ℕ) (fuel : ℕ)
    (hw : 3 ≤ width) (hh : 3 ≤ height) (m : WilsonMaze)
    (hgen : generate width height none none rng fuel = some m) :
    ∀ v, inGrid m.grid v → isEmptyCell m.grid v →
      reachesFrom m.grid m.startPos v := by
  obtain ⟨⟨-, -, hconn, -⟩, -, -, -, -, -⟩ :=
    generate_inv width height rng fuel (by omega) (by omega) m hgen
  obtain ⟨hs, -⟩ := generate_startPos width height rng fuel (by omega)
    (by omega) m hgen
  intro v hv hve
  rw [hs]
  exact hconn v hv hve

theorem c1_connected_witness :
    (3:Int) ≤ 5 ∧ (3:Int) ≤ 3 ∧
    generate 5 3 none none rngW 10 = some M5maze ∧
    inGrid M5maze.grid { x := 3, z := 1 } ∧
    isEmptyCell M5maze.grid { x := 3, z := 1 } ∧
    reachesFrom M5maze.grid M5maze.startPos { x := 3, z := 1 } :=
  ⟨by norm_num, by norm_num, by decide, by decide, by decide,
    c1_connected 5 3 rngW 10 (by norm_num) (by norm_num) M5maze (by decide)
      { x := 3, z := 1 } (by decide) (by decide)⟩

/-- C2: for every terminating run of `WilsonMaze` generation with
requested width and height at least 3, the `Empty`-cell subgraph is a
spanning tree in count: the number of `Empty` cells equals the number of
grid-adjacent `Empty`-cell pairs plus one. -/
theorem c2_tree_count (width height : Int) (rng : ℕ → ℕ) (fuel : ℕ)
    (hw : 3 ≤ width) (hh : 3 ≤ height) (m : WilsonMaze)
    (hgen : generate width height none none rng fuel = some m) :
    emptyCount m.grid = connectionCount m.grid + 1 := by
  obtain ⟨⟨-, -, -, hcount⟩, -⟩ :=
    generate_inv width height rng fuel (by omega) (by omega) m hgen
  exact hcount

theorem c2_tree_count_witness :
    (3:Int) ≤ 5 ∧ (3:Int) ≤ 3 ∧
    generate 5 3 none none rngW 10 = some M5maze ∧
    emptyCount M5maze.grid = connectionCount M5maze.grid + 1 :=
  ⟨by norm_num, by norm_num, by decide,
    c2_tree_count 5 3 rngW 10 (by norm_num) (by norm_num) M5maze
      (by decide)⟩

/-- C4 amended: for requested width and height at least 2 (the original
claim fails at width 1, see the counterexample), the default start is
`(1,1)`, the default goal is `(width-2, height-2)` in normalized
dimensions, and after a terminating generation both cells are `Empty`;
at `generate 2 2` both coincide at `(1,1)`. -/
theorem c4_amended (width height : Int) (rng : ℕ → ℕ) (fuel : ℕ)
    (hw : 2 ≤ width) (hh : 2 ≤ height) (m : WilsonMaze)
    (hgen : generate width height none none rng fuel = some m) :
    m.startPos = { x := 1, z := 1 } ∧
    m.goalPos = { x := normalizeDim width - 2,
                  z := normalizeDim height - 2 } ∧
    isEmptyCell m.grid m.startPos ∧ isEmptyCell m.grid m.goalPos := by
  obtain ⟨⟨hbasic, -, -, -⟩, hsc, hwd, hhd, -, -⟩ :=
    generate_inv width height rng fuel hw hh m hgen
  obtain ⟨hs, hg⟩ := generate_startPos width height rng fuel hw hh m hgen
  have hW3 := normalizeDim_ge3 width hw
  have hH3 := normalizeDim_ge3 height hh
  have hWodd := normalizeDim_odd width
  have hHodd := normalizeDim_odd height
  refine ⟨hs, hg, ?_, ?_⟩
  · rw [hs]
    exact hbasic.startEmpty
  · rw [hg]
    apply solidCross_zero_empty m.grid hbasic.len hsc
    · refine ⟨?_, ?_, ?_, ?_⟩
      · show (0:Int) ≤ normalizeDim width - 2
        omega
      · show normalizeDim width - 2 ≤ m.grid.width - 1
        omega
      · show (0:Int) ≤ normalizeDim height - 2
        omega
      · show normalizeDim height - 2 ≤ m.grid.height - 1
        omega
    · exact ⟨show (normalizeDim width - 2) % 2 = 1 by omega,
        show (normalizeDim height - 2) % 2 = 1 by omega⟩

theorem c4_amended_witness :
    (2:Int) ≤ 2 ∧ (2:Int) ≤ 2 ∧
    generate 2 2 none none (fun _ => 0) 0 = some m22 ∧
    (m22.startPos = { x := 1, z := 1 } ∧
     m22.goalPos = { x := normalizeDim 2 - 2, z := normalizeDim 2 - 2 } ∧
     isEmptyCell m22.grid m22.startPos ∧
     isEmptyCell m22.grid m22.goalPos) :=
  ⟨by norm_num, by norm_num, by decide,
    c4_amended 2 2 (fun _ => 0) 0 (by norm_num) (by norm_num) m22
      (by decide)⟩

/-- C10: for every terminating generation whose normalized dimensions
are at least 3, every boundary cell of the final grid is `Solid`: only
interior cells are ever carved, so the maze is enclosed by a solid wall
ring. -/
theorem c10_boundary (width height : Int) (rng : ℕ → ℕ) (fuel : ℕ)
    (hw : 3 ≤ normalizeDim width) (hh : 3 ≤ normalizeDim height)
    (m : WilsonMaze)
    (hgen : generate width height none none rng fuel = some m)
    (v : Vector2) (hv : inGrid m.grid v)
    (hb : v.x = 0 ∨ v.x = m.grid.width - 1 ∨ v.z = 0 ∨
      v.z = m.grid.height - 1) :
    getCellType m.grid v.x v.z = some CellType.Solid := by
  have hw2 : 2 ≤ width := by
    unfold normalizeDim at hw
    split at hw <;> omega
  have hh2 : 2 ≤ height := by
    unfold normalizeDim at hh
    split at hh <;> omega
  obtain ⟨⟨hbasic, -, -, -⟩, -, hwd, hhd, -, -⟩ :=
    generate_inv width height rng fuel hw2 hh2 m hgen
  by_cases he : isEmptyCell m.grid v
  · exfalso
    obtain ⟨⟨b1, b2, b3, b4⟩, -⟩ := hbasic.emptyValid v hv he
    rcases hb with h | h | h | h <;> omega
  · exact solid_of_not_empty m.grid v hbasic.len hv he

theorem c10_boundary_witness :
    (3:Int) ≤ normalizeDim 5 ∧ (3:Int) ≤ normalizeDim 3 ∧
    generate 5 3 none none rngW 10 = some M5maze ∧
    inGrid M5maze.grid { x := 0, z := 0 } ∧
    (({ x := 0, z := 0 } : Vector2).x = 0 ∨
      ({ x := 0, z := 0 } : Vector2).x = M5maze.grid.width - 1 ∨
      ({ x := 0, z := 0 } : Vector2).z = 0 ∨
      ({ x := 0, z := 0 } : Vector2).z = M5maze.grid.height - 1) ∧
    getCellType M5maze.grid ({ x := 0, z := 0 } : Vector2).x
      ({ x := 0, z := 0 } : Vector2).z = some CellType.Solid :=
  ⟨by decide, by decide, by decide, by decide, Or.inl (by decide),
    c10_boundary 5 3 rngW 10 (by decide) (by decide) M5maze (by decide)
      { x := 0, z := 0 } (by decide) (Or.inl (by decide))⟩


/-! ### C9: the checked run equals the unchecked run -/

theorem randomWalkChecked_eq (g : MazeGrid) (rng : ℕ → ℕ) :
    ∀ (fuel k : ℕ) (curr : Vector2) (path : Path), inGrid g curr →
      randomWalkChecked g rng fuel k curr path =
        randomWalk g rng fuel k curr path := by
  intro fuel
  induction fuel with
  | zero =>
    intro k curr path _
    rfl
  | succ fuel ih =>
    intro k curr path hcurr
    simp only [randomWalkChecked, randomWalk]
    rw [if_neg (not_not_intro hcurr)]
    split
    · split
      · exact ih (k + 1) curr path hcurr
      · next hoob =>
        split
        · rfl
        · exact ih (k + 1) _ _ (notOOB_inGrid g _ hoob)
    · rfl

theorem carvePathChecked_eq (g0 : MazeGrid) (path : Path)
    (rank : Vector2 → ℕ) (hpath : PathOk g0 path rank) :
    ∀ (fuel : ℕ) (g : MazeGrid) (curr : Vector2) (n : Int),
      g.width = g0.width → g.height = g0.height → inGrid g curr →
      carvePathChecked g path fuel curr n =
        carvePath g path fuel curr n := by
  intro fuel
  induction fuel with
  | zero =>
    intro g curr n _ _ _
    rfl
  | succ fuel ih =>
    intro g curr n hwd hhd hcurr
    simp only [carvePathChecked, carvePath]
    rw [if_neg (not_not_intro hcurr)]
    split
    · split
      · rfl
      · next dir hget =>
        obtain ⟨⟨hc0, -, hf0⟩, -⟩ := hpath curr dir hget
        have hfarg : inGrid g (stepIn curr dir 2) :=
          (inGrid_eq_dims g g0 hwd hhd _).mpr hf0
        have hbg : inGrid g (stepIn curr dir 1) :=
          inGrid_between g curr dir hcurr hfarg
        rw [if_neg (not_not_intro hbg)]
        set b := stepIn curr dir 1 with hbdef
        set g2 := setCellType (setCellType g curr.x curr.z CellType.Empty)
          b.x b.z CellType.Empty with hg2
        have hw2 : g2.width = g.width := by
          rw [hg2, setCellType_width, setCellType_width]
        have hh2 : g2.height = g.height := by
          rw [hg2, setCellType_height, setCellType_height]
        exact ih g2 (stepIn curr dir 2) (n - 1) (hw2.trans hwd)
          (hh2.trans hhd) ((inGrid_eq_dims g2 g hw2 hh2 _).mpr hfarg)
    · rfl

theorem generateLoopChecked_eq (rng : ℕ → ℕ) (wfuel : ℕ) :
    ∀ (fuel k : ℕ) (g : MazeGrid) (n : Int),
      3 ≤ g.width → g.width % 2 = 1 → 3 ≤ g.height → g.height % 2 = 1 →
      generateLoopChecked rng wfuel fuel k g n =
        generateLoop rng wfuel fuel k g n := by
  intro fuel
  induction fuel with
  | zero =>
    intro k g n _ _ _ _
    rfl
  | succ fuel ih =>
    intro k g n hw hwo hh hho
    simp only [generateLoopChecked, generateLoop]
    split
    · obtain ⟨hsg, hsc⟩ := randomOddCell_spec g rng k hw hwo hh hho
      rw [if_neg (not_not_intro hsg),
        randomWalkChecked_eq g rng wfuel (k + 2) _ [] hsg]
      split
      · rfl
      · next path k' hwalk =>
        obtain ⟨rank, hpath⟩ := randomWalk_pathOk g rng wfuel (k + 2) _ []
          (fun _ => 0) hsg hsc (by intro v d hv; simp [mapGet] at hv)
          path k' hwalk
        rw [carvePathChecked_eq g path rank hpath wfuel g _ n rfl rfl hsg]
        split
        · rfl
        · next g2 n2 hcarve =>
          obtain ⟨hwd, hhd, -⟩ :=
            carvePath_dims path wfuel g _ n g2 n2 hcarve
          exact ih k' g2 n2 (by omega) (by omega) (by omega) (by omega)
    · rfl


/-- C9 amended: for requested width and height at least 2 with default
start and goal (the original \"width, height >= 1\" fails at 1x1, see the
counterexample), the constructor's start and goal indices lie inside the
cells array, and the instrumented run in which every read and write of
the cells array carries an explicit bounds check is equal to the
uninstrumented run — the out-of-bounds branch is unreachable. -/
theorem c9_amended (width height : Int) (rng : ℕ → ℕ) (fuel : ℕ)
    (hw : 2 ≤ width) (hh : 2 ≤ height) :
    generateChecked width height none none rng fuel =
      generate width height none none rng fuel ∧
    ∀ m, generate width height none none rng fuel = some m →
      0 ≤ m.startIndex ∧
      m.startIndex < normalizeDim width * normalizeDim height ∧
      0 ≤ m.goalIndex ∧
      m.goalIndex < normalizeDim width * normalizeDim height := by
  have hW3 := normalizeDim_ge3 width hw
  have hH3 := normalizeDim_ge3 height hh
  have h1 : (normalizeDim height - 2) * normalizeDim width =
      normalizeDim width * normalizeDim height - 2 * normalizeDim width :=
    by ring
  have h2 : normalizeDim width * 3 ≤
      normalizeDim width * normalizeDim height :=
    mul_le_mul_of_nonneg_left (by omega) (by omega)
  constructor
  · simp only [generateChecked, generate, Option.getD_none]
    have hq1 : 3 ≤ (initState (normalizeDim width) (normalizeDim height)
        { x := 1, z := 1 }).width := by
      rw [initState_width]
      omega
    have hq2 : (initState (normalizeDim width) (normalizeDim height)
        { x := 1, z := 1 }).width % 2 = 1 := by
      rw [initState_width]
      exact normalizeDim_odd width
    have hq3 : 3 ≤ (initState (normalizeDim width) (normalizeDim height)
        { x := 1, z := 1 }).height := by
      rw [initState_height]
      omega
    have hq4 : (initState (normalizeDim width) (normalizeDim height)
        { x := 1, z := 1 }).height % 2 = 1 := by
      rw [initState_height]
      exact normalizeDim_odd height
    rw [generateLoopChecked_eq rng fuel fuel 0 _ _ hq1 hq2 hq3 hq4]
    split
    · next hneg =>
      exfalso
      apply hneg
      refine ⟨?_, ?_, ?_, ?_, ?_, ?_, ?_, ?_⟩
      · show (0:Int) ≤ 1 * normalizeDim width + 1
        omega
      · show 1 * normalizeDim width + 1 <
          normalizeDim width * normalizeDim height
        omega
      · show (0:Int) ≤ (normalizeDim height - 2) * normalizeDim width +
          (normalizeDim width - 2)
        omega
      · show (normalizeDim height - 2) * normalizeDim width +
          (normalizeDim width - 2) <
          normalizeDim width * normalizeDim height
        omega
      · show (0:Int) ≤ 1
        norm_num
      · show (1:Int) ≤ normalizeDim width - 1
        omega
      · show (0:Int) ≤ 1
        norm_num
      · show (1:Int) ≤ normalizeDim height - 1
        omega
    · rfl
  · intro m hgen
    obtain ⟨-, -, -, -, hsi, hgi⟩ :=
      generate_inv width height rng fuel hw hh m hgen
    refine ⟨by omega, by omega, by omega, by omega⟩

theorem c9_amended_witness :
    (2:Int) ≤ 5 ∧ (2:Int) ≤ 3 ∧
    (generateChecked 5 3 none none rngW 10 =
        generate 5 3 none none rngW 10 ∧
      ∀ m, generate 5 3 none none rngW 10 = some m →
        0 ≤ m.startIndex ∧
        m.startIndex < normalizeDim 5 * normalizeDim 3 ∧
        0 ≤ m.goalIndex ∧
        m.goalIndex < normalizeDim 5 * normalizeDim 3) :=
  ⟨by norm_num, by norm_num,
    c9_amended 5 3 rngW 10 (by norm_num) (by norm_num)⟩

end MazeGame
